import Mathlib

/-!
Verification of the C shim layer of the `phst/emacs` module bindings.

The development shallowly embeds the C sources (`src/error.c`, `src/init.c`,
`src/integer.c`, `src/pipe.c`, `src/string.c`, `src/time.c`, `src/wrappers.c`)
over an explicit model of the host editor's module environment
(`emacs_env`): the environment carries at most one pending nonlocal exit,
every host primitive first checks for a pending exit and becomes a no-op
returning an unspecified value when one is set (the `MODULE_FUNCTION_BEGIN`
discipline of the host), `non_local_exit_signal`/`non_local_exit_throw`
record an exit only when none is pending, and `non_local_exit_get`/
`non_local_exit_clear` observe and clear it.

Machine integers (`int64_t`, `ptrdiff_t`) are modelled as `Int` with the
relevant bound checks made explicit, exactly where the C code checks them;
byte values (`uint8_t`) as `Nat` constrained to `< 256` in hypotheses;
`malloc`/`free` as an explicit heap of allocation identifiers so that
allocation and ownership claims are expressible.
-/

namespace EmacsShim

/-- The symbol names the shim interns at runtime (the C string literals
passed to `env->intern` across the sources), plus the Lisp functions it
calls by name.  Using a closed enumeration avoids any interpretation of
host symbol identity beyond name equality. -/
inductive SymName where
  | nilSym
  | goError
  | errorSym
  | overflowErrorSym
  | goUnimplementedError
  | listSym
  | carSym
  | cdrSym
  | secondsToTimeSym
  | unibyteStringSym
  | wrongTypeArgument
  deriving DecidableEq, Repr

/-- Model of a host value (`emacs_value`).  `junkV` stands for an
unspecified value: a NULL pointer or the don't-care result a host
primitive returns when a nonlocal exit is pending. -/
inductive EValue where
  | symbol (name : SymName)
  | int (n : Int)
  | str (bytes : List Nat)
  | cons (a d : EValue)
  | opaqueV (id : Nat)
  | junkV
  deriving DecidableEq, Repr

/-- The Lisp value `nil` (the interned symbol `nil`). -/
def nilV : EValue := .symbol .nilSym

/-- `enum emacs_funcall_exit`. -/
inductive FuncallExit where
  | exitReturn
  | exitSignal
  | exitThrow
  deriving DecidableEq, Repr

/-- A pending nonlocal exit stored in the environment: the host carries at
most one of these at a time. -/
inductive Pending where
  | signalP (sym data : EValue)
  | throwP (tag val : EValue)
  deriving DecidableEq, Repr

/-- `struct result_base` / `struct phst_emacs_result_base`: what
`non_local_exit_get` reported.  When `exit` is `exitReturn` the symbol and
data fields are unspecified (the C leaves them uninitialized). -/
structure ResultBase where
  exit : FuncallExit
  error_symbol : EValue
  error_data : EValue
  deriving DecidableEq, Repr

/-- `struct result_base_with_optional_error_info`, used at guest-boundary
crossings. -/
structure ResultWithInfo where
  exit : FuncallExit
  has_error_info : Bool
  error_symbol : EValue
  error_data : EValue
  deriving DecidableEq, Repr

/-- The `ResultBase` corresponding to capturing a given pending exit. -/
def Pending.toBase : Pending → ResultBase
  | .signalP s d => ⟨.exitSignal, s, d⟩
  | .throwP t v => ⟨.exitThrow, t, v⟩

/-- The literal `{emacs_funcall_exit_return, NULL, NULL}` envelope base the
C code builds on pure success paths. -/
def retBase : ResultBase := ⟨.exitReturn, .junkV, .junkV⟩

/-- Model of the C allocator: `ctr` numbers allocation requests, `live`
lists the identifiers of currently live allocations, and `failAt` is an
oracle saying which allocation requests return NULL. -/
structure Heap where
  ctr : Nat
  live : List Nat
  failAt : Nat → Bool

/-- One host response to a `copy_string_contents` call: either a failure
(the host signals `p` and returns false) or success reporting `size` and,
for a filling call, writing `content` into the buffer. -/
inductive CSResp where
  | failR (p : Pending)
  | okR (size : Int) (content : List Nat)

/-- The module environment (`emacs_env`) together with the oracles that
determine the host's behaviour on the calls whose outcome the C code
branches on: `csQueue` scripts successive `copy_string_contents` host
calls, `miFail`/`miCalls` script and count `make_integer` host calls. -/
structure Env where
  size : Nat
  pending : Option Pending
  heap : Heap
  csQueue : List CSResp
  miFail : Nat → Option Pending
  miCalls : Nat

/-- Constants fixed by the host header `emacs-module.h` (not part of this
repository's sources): the limb width of the host big-integer ABI and the
struct offsets/sizes the version gates compare against. -/
structure Layout where
  limbSize : Nat
  off_extract_big_integer : Nat
  off_make_big_integer : Nat
  off_extract_time : Nat
  off_make_time : Nat
  off_make_unibyte_string : Nat
  off_open_channel : Nat
  sizeof_runtime : Nat
  sizeof_env_26 : Nat
  sizeof_env_27 : Nat

/-- `INT_MAX` on the supported targets (32-bit `int`; the sources
statically assert the exact widths of the other types they rely on). -/
def INT_MAX : Int := 2 ^ 31 - 1

/-- `INT64_MAX`; the sources assert `PTRDIFF_MAX == INT64_MAX`. -/
def INT64_MAX : Int := 2 ^ 63 - 1

/-- `INT64_MIN`. -/
def INT64_MIN : Int := -(2 ^ 63)

/-- `PTRDIFF_MAX` (statically asserted equal to `INT64_MAX`). -/
def PTRDIFF_MAX : Int := 2 ^ 63 - 1

/-- `SIZE_MAX` on the supported targets. -/
def SIZE_MAX : Int := 2 ^ 64 - 1

/-- `UINTPTR_MAX` (statically asserted equal to `UINT64_MAX`). -/
def UINTPTR_MAX : Nat := 2 ^ 64 - 1

/-- `malloc` under the heap model: returns a fresh identifier, or `none`
when the allocator oracle makes this request fail. -/
def Heap.alloc (h : Heap) : Option Nat × Heap :=
  if h.failAt h.ctr then (none, { h with ctr := h.ctr + 1 })
  else (some h.ctr, { h with ctr := h.ctr + 1, live := h.ctr :: h.live })

/-- `free`. -/
def Heap.freeId (h : Heap) (id : Nat) : Heap :=
  { h with live := h.live.erase id }

/-- `malloc` lifted to the environment state. -/
def mallocE (env : Env) : Option Nat × Env :=
  let (r, h) := env.heap.alloc
  (r, { env with heap := h })

/-- `free` lifted to the environment state. -/
def freeE (env : Env) (id : Nat) : Env :=
  { env with heap := env.heap.freeId id }

/-- The environment after a temporary allocation: a `malloc` followed by
`free` advances the allocation counter and leaves the live set unchanged. -/
def heapBump (env : Env) : Env :=
  { env with heap :=
      { ctr := env.heap.ctr + 1, live := env.heap.live, failAt := env.heap.failAt } }

/-- The environment after an allocation retained by the caller: the fresh
identifier `env.heap.ctr` stays live. -/
def heapOwn (env : Env) : Env :=
  { env with heap :=
      { ctr := env.heap.ctr + 1, live := env.heap.ctr :: env.heap.live,
        failAt := env.heap.failAt } }

namespace Host

/-- `env->non_local_exit_get`: reports the pending exit without clearing
it.  With no pending exit it reports `exitReturn` and leaves the output
symbol/data slots untouched (modelled as `junkV`). -/
def nonLocalExitGet (env : Env) : FuncallExit × EValue × EValue :=
  match env.pending with
  | none => (.exitReturn, .junkV, .junkV)
  | some (.signalP s d) => (.exitSignal, s, d)
  | some (.throwP t v) => (.exitThrow, t, v)

/-- `env->non_local_exit_clear`. -/
def nonLocalExitClear (env : Env) : Env :=
  { env with pending := none }

/-- `env->non_local_exit_signal`: records a signal exit, but only when no
exit is already pending (the host keeps the first exit). -/
def nonLocalExitSignal (env : Env) (sym data : EValue) : Env :=
  if env.pending.isSome then env
  else { env with pending := some (.signalP sym data) }

/-- `env->non_local_exit_throw`. -/
def nonLocalExitThrow (env : Env) (tag val : EValue) : Env :=
  if env.pending.isSome then env
  else { env with pending := some (.throwP tag val) }

/-- `env->intern`: a no-op returning an unspecified value when an exit is
pending; otherwise the symbol of that name (all names the shim interns
are pure ASCII, for which interning cannot fail). -/
def intern (env : Env) (s : SymName) : EValue × Env :=
  if env.pending.isSome then (.junkV, env) else (.symbol s, env)

/-- `env->make_string` (only used by the shim for its literal error
message, which is valid UTF-8, so the host cannot reject it). -/
def makeString (env : Env) (bytes : List Nat) : EValue × Env :=
  if env.pending.isSome then (.junkV, env) else (.str bytes, env)

/-- `env->make_integer`.  `miFail` is the oracle for host-side failures of
this primitive; `miCalls` counts every call the shim issues (also the
no-op ones made with an exit pending). -/
def makeInteger (env : Env) (n : Int) : EValue × Env :=
  let k := env.miCalls
  let env' := { env with miCalls := k + 1 }
  if env'.pending.isSome then (.junkV, env')
  else
    match env'.miFail k with
    | some p => (.junkV, { env' with pending := some p })
    | none => (.int n, env')

/-- `env->extract_integer` on our values: integers extract to themselves
(every integer the development builds fits in `int64_t`); any other value
makes the host signal `wrong-type-argument`. -/
def extractInteger (env : Env) (v : EValue) : Int × Env :=
  if env.pending.isSome then (0, env)
  else
    match v with
    | .int n => (n, env)
    | _ => (0, nonLocalExitSignal env (.symbol .wrongTypeArgument) nilV)

/-- `env->is_not_nil`. -/
def isNotNil (env : Env) (v : EValue) : Bool × Env :=
  if env.pending.isSome then (false, env)
  else (decide (v ≠ nilV), env)

/-- Proper-list construction, for the host `list` function. -/
def buildList (args : List EValue) : EValue :=
  args.foldr .cons nilV

/-- Host `car`: `nil` and conses have a car; anything else is a
wrong-type error. -/
def carOf : EValue → Option EValue
  | .cons a _ => some a
  | .symbol .nilSym => some nilV
  | _ => none

/-- Host `cdr`. -/
def cdrOf : EValue → Option EValue
  | .cons _ d => some d
  | .symbol .nilSym => some nilV
  | _ => none

/-- Modelled from the spec: the host Lisp function `seconds-to-time` is
not part of this repository; per the spec it yields a 2–4 element list
`(high low micro pico)`.  On a value already in that canonical 4-element
form it is the identity; other inputs are not relied upon and give an
unspecified value. -/
def secondsToTimeFn : EValue → EValue
  | .cons (.int a) (.cons (.int b) (.cons (.int c) (.cons (.int d) (.symbol .nilSym)))) =>
      .cons (.int a) (.cons (.int b) (.cons (.int c) (.cons (.int d) (.symbol .nilSym))))
  | _ => .junkV

/-- Host `unibyte-string`: builds a unibyte string from integer byte
arguments; other argument shapes are not relied upon. -/
def unibyteStringFn (args : List EValue) : EValue :=
  if args.all (fun a => match a with | .int _ => true | _ => false) then
    .str (args.map (fun a => match a with | .int n => n.toNat | _ => 0))
  else .junkV

/-- `env->funcall` restricted to the functions the shim calls by name:
`list`, `car`, `cdr`, `seconds-to-time` and `unibyte-string`.  Calling
anything else yields an unspecified value. -/
def funcall (env : Env) (f : EValue) (args : List EValue) : EValue × Env :=
  if env.pending.isSome then (.junkV, env)
  else
    match f with
    | .symbol .listSym => (buildList args, env)
    | .symbol .carSym =>
        match carOf (args.getD 0 .junkV) with
        | some r => (r, env)
        | none => (.junkV, nonLocalExitSignal env (.symbol .wrongTypeArgument) nilV)
    | .symbol .cdrSym =>
        match cdrOf (args.getD 0 .junkV) with
        | some r => (r, env)
        | none => (.junkV, nonLocalExitSignal env (.symbol .wrongTypeArgument) nilV)
    | .symbol .secondsToTimeSym => (secondsToTimeFn (args.getD 0 .junkV), env)
    | .symbol .unibyteStringSym => (unibyteStringFn args, env)
    | _ => (.junkV, env)

end Host

/-! ### `src/error.c` (identically duplicated as the static helpers of
`src/wrappers.c`): the exit-state protocol. -/

/-- The ASCII bytes of the literal `"Out of memory"`. -/
def oomMessage : List Nat := [79, 117, 116, 32, 111, 102, 32, 109, 101, 109, 111, 114, 121]

/-- `check` (src/error.c:24-30, src/wrappers.c:57-63): queries the pending
nonlocal exit, clears it, and returns it. -/
def check (env : Env) : ResultBase × Env :=
  let (e, s, d) := Host.nonLocalExitGet env
  let env := Host.nonLocalExitClear env
  ({ exit := e, error_symbol := s, error_data := d }, env)

/-- `check_value`. -/
def check_value (env : Env) (v : EValue) : (ResultBase × EValue) × Env :=
  let (b, env) := check env
  ((b, v), env)

/-- `check_integer`. -/
def check_integer (env : Env) (n : Int) : (ResultBase × Int) × Env :=
  let (b, env) := check env
  ((b, n), env)

/-- `handle_nonlocal_exit` (src/error.c:44-65, src/wrappers.c:374-395):
reinjects an exit record into the host when returning control to it. -/
def handle_nonlocal_exit (env : Env) (r : ResultWithInfo) : Env :=
  if r.exit = .exitReturn then env
  else if !r.has_error_info then
    let (sym, env) := Host.intern env .goError
    let (dat, env) := Host.intern env .nilSym
    Host.nonLocalExitSignal env sym dat
  else
    match r.exit with
    | .exitReturn => env
    | .exitSignal => Host.nonLocalExitSignal env r.error_symbol r.error_data
    | .exitThrow => Host.nonLocalExitThrow env r.error_symbol r.error_data

/-- `out_of_memory` (src/error.c:67-76): signals `error` with the list
`("Out of memory")` as data and captures the resulting exit. -/
def out_of_memory (env : Env) : ResultBase × Env :=
  let (temp, env) := Host.makeString env oomMessage
  let (errSym, env) := Host.intern env .errorSym
  let (listSym, env) := Host.intern env .listSym
  let (dataV, env) := Host.funcall env listSym [temp]
  let env := Host.nonLocalExitSignal env errSym dataV
  check env

/-- `overflow_error` (src/error.c:78-82). -/
def overflow_error (env : Env) : ResultBase × Env :=
  let (sym, env) := Host.intern env .overflowErrorSym
  let (dat, env) := Host.intern env .nilSym
  check (Host.nonLocalExitSignal env sym dat)

/-- `unimplemented` (src/error.c:84-88). -/
def unimplemented (env : Env) : ResultBase × Env :=
  let (sym, env) := Host.intern env .goUnimplementedError
  let (dat, env) := Host.intern env .nilSym
  check (Host.nonLocalExitSignal env sym dat)

/-! ### Claims C1 and C2: the boundary reinjection routine and exit
observation idempotence. -/

/-- C1: `handle_nonlocal_exit` reinjects an exit record exactly: a
`return` record leaves the environment unchanged; a non-return record
without error info signals the runtime-interned generic `go-error` symbol
with `nil` data; a `signal` record with error info signals exactly the
stored symbol and data; a `throw` record with error info throws exactly
the stored tag and value.  (The environment is clean — no pending exit —
at reinjection time, since `check` cleared it.) -/
theorem handle_nonlocal_exit_reinjects :
    (∀ (env : Env) (r : ResultWithInfo), r.exit = .exitReturn →
      handle_nonlocal_exit env r = env) ∧
    (∀ (env : Env) (r : ResultWithInfo), r.exit ≠ .exitReturn →
      r.has_error_info = false → env.pending = none →
      (handle_nonlocal_exit env r).pending =
        some (.signalP (.symbol .goError) (.symbol .nilSym))) ∧
    (∀ (env : Env) (r : ResultWithInfo), r.exit = .exitSignal →
      r.has_error_info = true → env.pending = none →
      (handle_nonlocal_exit env r).pending =
        some (.signalP r.error_symbol r.error_data)) ∧
    (∀ (env : Env) (r : ResultWithInfo), r.exit = .exitThrow →
      r.has_error_info = true → env.pending = none →
      (handle_nonlocal_exit env r).pending =
        some (.throwP r.error_symbol r.error_data)) := by
  refine ⟨?_, ?_, ?_, ?_⟩
  · intro env r h
    simp [handle_nonlocal_exit, h]
  · intro env r hne hinfo hclean
    simp [handle_nonlocal_exit, hne, hinfo, Host.intern, Host.nonLocalExitSignal, hclean]
  · intro env r hs hinfo hclean
    simp [handle_nonlocal_exit, hs, hinfo, Host.nonLocalExitSignal, hclean]
  · intro env r ht hinfo hclean
    simp [handle_nonlocal_exit, ht, hinfo, Host.nonLocalExitThrow, hclean]

/-- A concrete environment with a clean exit state, used by witnesses. -/
def cleanEnv : Env :=
  { size := 4096
    pending := none
    heap := { ctr := 0, live := [], failAt := fun _ => false }
    csQueue := []
    miFail := fun _ => none
    miCalls := 0 }

/-- Witness for C1 at concrete exit records. -/
theorem handle_nonlocal_exit_reinjects_witness :
    (handle_nonlocal_exit cleanEnv ⟨.exitReturn, false, .junkV, .junkV⟩ = cleanEnv) ∧
    ((handle_nonlocal_exit cleanEnv ⟨.exitSignal, false, .junkV, .junkV⟩).pending =
      some (.signalP (.symbol .goError) (.symbol .nilSym))) ∧
    ((handle_nonlocal_exit cleanEnv ⟨.exitSignal, true, .symbol .errorSym, nilV⟩).pending =
      some (.signalP (.symbol .errorSym) nilV)) ∧
    ((handle_nonlocal_exit cleanEnv ⟨.exitThrow, true, .int 1, .int 2⟩).pending =
      some (.throwP (.int 1) (.int 2))) := by
  refine ⟨?_, ?_, ?_, ?_⟩
  · exact handle_nonlocal_exit_reinjects.1 cleanEnv _ rfl
  · exact handle_nonlocal_exit_reinjects.2.1 cleanEnv _ (by decide) rfl rfl
  · exact handle_nonlocal_exit_reinjects.2.2.1 cleanEnv _ rfl rfl rfl
  · exact handle_nonlocal_exit_reinjects.2.2.2 cleanEnv _ rfl rfl rfl

/-- C2: observing the exit state clears it: for every environment, a
second immediate `check` reports a `return` exit. -/
theorem check_idempotent (env : Env) :
    (check (check env).2).1.exit = .exitReturn := by
  simp [check, Host.nonLocalExitGet, Host.nonLocalExitClear]

/-! ### `src/integer.c`: integer and big-integer marshalling. -/

/-- Value of a little-endian digit list in base `B`. -/
def polyNat (B : Nat) : List Nat → Nat
  | [] => 0
  | d :: ds => d + B * polyNat B ds

/-- Value of a big-endian byte list (the portable big-integer magnitude
encoding: most significant byte first). -/
def beToNat (bytes : List Nat) : Nat := polyNat 256 bytes.reverse

/-- `2^(8·limb_size)`: one more than the largest limb value. -/
def limbBase (lay : Layout) : Nat := 2 ^ (8 * lay.limbSize)

/-- The inner limb-assembly loop of `make_big_integer`
(src/integer.c:131-138): limb `i` is
`Σⱼ data[count − i·limb_size − j − 1] << (j·CHAR_BIT)` over the `j < limb_size`
with `i·limb_size + j < count`. -/
def cLimb (data : Nat → Nat) (count : Int) (s i : Nat) : Nat :=
  ∑ j ∈ Finset.range s,
    if ((i * s + j : Nat) : Int) < count
    then data ((count - i * s - j - 1).toNat) * 2 ^ (8 * j)
    else 0

/-- Serialization of one limb most-significant-byte first (the inner `j`
loop of `extract_big_integer`, src/integer.c:70-75: position
`limb_size − 1 − j` receives `(uint8_t)(limb >> (j·CHAR_BIT))`). -/
def limbBytesBE (s limb : Nat) : List Nat :=
  (List.range s).map (fun p => limb / 2 ^ (8 * (s - 1 - p)) % 256)

/-- The byte-writing double loop of `extract_big_integer`: limb `i`'s
bytes land at positions `[size − (i+1)·limb_size, size − i·limb_size)`, so
the output buffer is the concatenation of the big-endian serializations of
the limbs in reverse limb order. -/
def extractBytes (s : Nat) (limbs : List Nat) : List Nat :=
  (limbs.reverse.map (limbBytesBE s)).flatten

namespace Host

/-- `env->make_big_integer`: builds the integer
`sign · Σᵢ magnitude[i] · (2^(8·limb_size))^i` from a little-endian limb
array. -/
def makeBigInteger (L : Nat) (env : Env) (sign : Int) (limbs : List Nat) : EValue × Env :=
  if env.pending.isSome then (.junkV, env)
  else (.int (sign * polyNat L limbs), env)

/-- `env->extract_big_integer` called with a NULL magnitude buffer: on an
integer it reports the sign and the minimal number of limbs required for
the magnitude (`Nat.log L m + 1` is the least `c ≥ 1` with `m < L^c`). -/
def extractBigIntegerProbe (L : Nat) (env : Env) (v : EValue) : (Bool × Int × Int) × Env :=
  if env.pending.isSome then ((false, 0, 0), env)
  else
    match v with
    | .int n => ((true, Int.sign n, ((Nat.log L n.natAbs + 1 : Nat) : Int)), env)
    | _ => ((false, 0, 0), nonLocalExitSignal env (.symbol .wrongTypeArgument) nilV)

/-- `env->extract_big_integer` called with a magnitude buffer of `count`
limbs: fills it with the magnitude's limbs least-significant first. -/
def extractBigIntegerFill (L : Nat) (env : Env) (v : EValue) (count : Nat) :
    (Bool × List Nat) × Env :=
  if env.pending.isSome then ((false, []), env)
  else
    match v with
    | .int n => ((true, (List.range count).map (fun i => n.natAbs / L ^ i % L)), env)
    | _ => ((false, []), nonLocalExitSignal env (.symbol .wrongTypeArgument) nilV)

end Host

/-- `extract_integer` (src/integer.c:43-45). -/
def extract_integer (env : Env) (v : EValue) : (ResultBase × Int) × Env :=
  let (n, env) := Host.extractInteger env v
  check_integer env n

/-- `make_integer` (src/integer.c:109-111). -/
def make_integer (env : Env) (n : Int) : (ResultBase × EValue) × Env :=
  let (v, env) := Host.makeInteger env n
  check_value env v

/-- `struct big_integer_result`: exit base, sign, the malloc'd buffer
(allocation id and contents; `none` is NULL) and its byte size. -/
structure BigIntegerResult where
  base : ResultBase
  sign : Int
  data : Option (Nat × List Nat)
  size : Int
  deriving Repr

/-- `extract_big_integer` (src/integer.c:47-107).  On a host with native
big integers (version gate on `env->size`): probe sign and limb count,
reject sizes above `INT_MAX` (or half of `SIZE_MAX`), allocate, fill the
limbs and serialize them most-significant-byte first.  On an older host:
fall back to `extract_integer` and encode the absolute value (computed by
unsigned negation) as 8 big-endian bytes. -/
def extract_big_integer (lay : Layout) (env : Env) (v : EValue) : BigIntegerResult × Env :=
  if env.size > lay.off_extract_big_integer then
    let ((ok, sign, count), env) := Host.extractBigIntegerProbe (limbBase lay) env v
    if ok = false ∨ sign = 0 then
      let (b, env) := check env
      ({ base := b, sign := 0, data := none, size := 0 }, env)
    else
      let limbSize : Int := lay.limbSize
      let size := count * limbSize
      if size > INT_MAX ∨ size > SIZE_MAX.tdiv 2 then
        let (b, env) := overflow_error env
        ({ base := b, sign := 0, data := none, size := 0 }, env)
      else
        -- the C allocates one block of 2·size bytes holding the limb
        -- array in its upper half and the serialized bytes below
        match mallocE env with
        | (none, env) =>
          let (b, env) := out_of_memory env
          ({ base := b, sign := 0, data := none, size := 0 }, env)
        | (some id, env) =>
          let ((_ok2, limbs), env) := Host.extractBigIntegerFill (limbBase lay) env v count.toNat
          ({ base := retBase, sign := sign,
             data := some (id, extractBytes lay.limbSize limbs), size := size }, env)
  else
    let (ir, env) := extract_integer env v
    if ir.1.exit ≠ .exitReturn ∨ ir.2 = 0 then
      ({ base := ir.1, sign := 0, data := none, size := 0 }, env)
    else
      let u : Nat := ir.2.natAbs
      match mallocE env with
      | (none, env) =>
        let (b, env) := out_of_memory env
        ({ base := b, sign := 0, data := none, size := 0 }, env)
      | (some id, env) =>
        ({ base := retBase, sign := if ir.2 > 0 then 1 else -1,
           data := some (id,
             [u / 2 ^ 56 % 256, u / 2 ^ 48 % 256, u / 2 ^ 40 % 256, u / 2 ^ 32 % 256,
              u / 2 ^ 24 % 256, u / 2 ^ 16 % 256, u / 2 ^ 8 % 256, u % 256]),
           size := 8 }, env)

/-- `make_big_integer` (src/integer.c:113-148).  On a native host: reject
`count > INT64_MAX − limb_size` (and the identical `PTRDIFF_MAX` bound)
before any allocation, assemble `⌈count/limb_size⌉` limbs least-significant
first from the big-endian bytes, hand them to the host and free them.  On
an older host the caller always uses `make_integer` for fitting values, so
reaching the fallback means overflow. -/
def make_big_integer (lay : Layout) (env : Env) (sign : Int) (data : Nat → Nat)
    (count : Int) : (ResultBase × EValue) × Env :=
  if env.size > lay.off_make_big_integer then
    let limbSize : Int := lay.limbSize
    if count > INT64_MAX - limbSize ∨ count > PTRDIFF_MAX - limbSize then
      let (b, env) := overflow_error env
      ((b, .junkV), env)
    else
      let nlimbs := (count + limbSize - 1).tdiv limbSize
      match mallocE env with
      | (none, env) =>
        let (b, env) := out_of_memory env
        ((b, .junkV), env)
      | (some id, env) =>
        let limbs := (List.range nlimbs.toNat).map (fun i => cLimb data count lay.limbSize i)
        let (v, env) := Host.makeBigInteger (limbBase lay) env sign limbs
        let (res, env) := check_value env v
        let env := freeE env id
        (res, env)
  else
    let (b, env) := overflow_error env
    ((b, .junkV), env)

/-! ### Digit arithmetic for the big-integer round-trip. -/

theorem polyNat_append (B : Nat) (l₁ l₂ : List Nat) :
    polyNat B (l₁ ++ l₂) = polyNat B l₁ + B ^ l₁.length * polyNat B l₂ := by
  induction l₁ with
  | nil => simp [polyNat]
  | cons d ds ih => simp [polyNat, ih, pow_succ]; ring

theorem polyNat_lt (B : Nat) (l : List Nat) (h : ∀ d ∈ l, d < B) :
    polyNat B l < B ^ l.length := by
  induction l with
  | nil => simp [polyNat]
  | cons d ds ih =>
    have hd := h d (by simp)
    have hds := ih (fun x hx => h x (by simp [hx]))
    have h1 : d + B * polyNat B ds < B * (polyNat B ds + 1) := by
      have hmul : B * (polyNat B ds + 1) = B * polyNat B ds + B := by ring
      omega
    have h2 : B * (polyNat B ds + 1) ≤ B * B ^ ds.length := by
      exact Nat.mul_le_mul_left B (Nat.succ_le_of_lt hds)
    calc polyNat B (d :: ds) = d + B * polyNat B ds := rfl
      _ < B * (polyNat B ds + 1) := h1
      _ ≤ B * B ^ ds.length := h2
      _ = B ^ (d :: ds).length := by simp [pow_succ]; ring

theorem polyNat_take_drop (B s : Nat) (l : List Nat) :
    polyNat B l = polyNat B (l.take s) + B ^ s * polyNat B (l.drop s) := by
  rcases Nat.le_total l.length s with h | h
  · rw [List.take_of_length_le h, List.drop_eq_nil_of_le h]
    simp [polyNat]
  · conv_lhs => rw [← List.take_append_drop s l]
    rw [polyNat_append]
    congr 2
    simp [List.length_take, Nat.min_eq_left h]

theorem polyNat_eq_sum_getD (B : Nat) (l : List Nat) (n : Nat) (h : l.length ≤ n) :
    polyNat B l = ∑ j ∈ Finset.range n, l.getD j 0 * B ^ j := by
  induction n generalizing l with
  | zero =>
    have : l = [] := List.eq_nil_of_length_eq_zero (Nat.le_zero.mp h)
    simp [this, polyNat]
  | succ n ih =>
    cases l with
    | nil => simp [polyNat, List.getD_nil]
    | cons d ds =>
      rw [Finset.sum_range_succ']
      simp only [List.getD_cons_succ, List.getD_cons_zero, pow_zero, mul_one]
      have hsum := ih ds (by simpa using h)
      have hstep : polyNat B (d :: ds) = d + B * polyNat B ds := rfl
      rw [hstep, hsum, Finset.mul_sum, add_comm]
      congr 1
      apply Finset.sum_congr rfl
      intro j _
      ring

theorem polyNat_div_pow_mod (B : Nat) (hB : 2 ≤ B) (l : List Nat)
    (h : ∀ d ∈ l, d < B) (k : Nat) :
    polyNat B l / B ^ k % B = l.getD k 0 := by
  induction l generalizing k with
  | nil => simp [polyNat, List.getD_nil, Nat.zero_div]
  | cons d ds ih =>
    have hd := h d (by simp)
    have hds : ∀ x ∈ ds, x < B := fun x hx => h x (by simp [hx])
    cases k with
    | zero =>
      simp only [pow_zero, Nat.div_one, List.getD_cons_zero]
      calc polyNat B (d :: ds) % B = (d + B * polyNat B ds) % B := rfl
        _ = d % B := Nat.add_mul_mod_self_left d B (polyNat B ds)
        _ = d := Nat.mod_eq_of_lt hd
    | succ k =>
      have h1 : polyNat B (d :: ds) / B = polyNat B ds := by
        have : (d + B * polyNat B ds) / B = d / B + polyNat B ds :=
          Nat.add_mul_div_left d (polyNat B ds) (by omega)
        simpa [polyNat, Nat.div_eq_of_lt hd] using this
      calc polyNat B (d :: ds) / B ^ (k + 1) % B
          = polyNat B (d :: ds) / B / B ^ k % B := by
            rw [Nat.div_div_eq_div_mul, ← pow_succ']
        _ = polyNat B ds / B ^ k % B := by rw [h1]
        _ = ds.getD k 0 := ih hds k
        _ = (d :: ds).getD (k + 1) 0 := (List.getD_cons_succ).symm

/-- Reassembling little-endian base-`B` chunks of width `s` recovers the
base-`B` value of the whole list. -/
theorem polyNat_chunks (B s : Nat) (n : Nat) (le : List Nat)
    (h : le.length ≤ n * s) :
    polyNat (B ^ s) ((List.range n).map
      (fun i => polyNat B ((le.drop (i * s)).take s))) = polyNat B le := by
  induction n generalizing le with
  | zero =>
    have h0 : le.length = 0 := by simpa using h
    have : le = [] := List.eq_nil_of_length_eq_zero h0
    simp [this, polyNat]
  | succ n ih =>
    rw [List.range_succ_eq_map, List.map_cons, List.map_map]
    have hcomp : ((fun i => polyNat B ((le.drop (i * s)).take s)) ∘ Nat.succ) =
        fun i => polyNat B (((le.drop s).drop (i * s)).take s) := by
      funext i
      simp only [Function.comp]
      have hms : s + i * s = Nat.succ i * s := by
        rw [Nat.succ_mul, Nat.add_comm]
      rw [List.drop_drop, hms]
    rw [hcomp]
    have hlen : (le.drop s).length ≤ n * s := by
      have hexp : (n + 1) * s = n * s + s := by ring
      simp only [List.length_drop]
      omega
    calc polyNat (B ^ s) (polyNat B ((le.drop (0 * s)).take s) ::
            (List.range n).map (fun i => polyNat B (((le.drop s).drop (i * s)).take s)))
        = polyNat B ((le.drop 0).take s) + B ^ s *
            polyNat (B ^ s) ((List.range n).map
              (fun i => polyNat B (((le.drop s).drop (i * s)).take s))) := by
          simp [polyNat]
      _ = polyNat B (le.take s) + B ^ s * polyNat B (le.drop s) := by
          rw [ih (le.drop s) hlen]; simp
      _ = polyNat B le := (polyNat_take_drop B s le).symm

theorem pow256_eq (s : Nat) : (2 : Nat) ^ (8 * s) = 256 ^ s := by
  rw [pow_mul]; norm_num

/-- Element `j` of a width-`s` chunk of the reversed byte list, in terms
of the original big-endian bytes. -/
theorem chunk_getD (bytes : List Nat) (s i j : Nat) (hj : j < s) :
    ((bytes.reverse.drop (i * s)).take s).getD j 0 =
      if i * s + j < bytes.length then bytes.getD (bytes.length - 1 - (i * s + j)) 0 else 0 := by
  rw [List.getD_eq_getElem?_getD, List.getElem?_take, if_pos hj, List.getElem?_drop]
  by_cases hin : i * s + j < bytes.length
  · have hm : i * s + j < bytes.reverse.length := by simpa using hin
    rw [if_pos hin, List.getElem?_eq_getElem hm, List.getElem_reverse]
    have hval : bytes.length - 1 - (i * s + j) < bytes.length := by omega
    rw [List.getD_eq_getElem?_getD, List.getElem?_eq_getElem hval]
  · have hm : bytes.reverse.length ≤ i * s + j := by
      simpa using Nat.le_of_not_lt hin
    rw [if_neg hin, List.getElem?_eq_none hm]
    simp

/-- The byte at index `k` of a big-endian buffer (the C pointer access
`data[k]`). -/
def byteAt (bytes : List Nat) : Nat → Nat := fun k => bytes.getD k 0

/-- The limb assembled by the C loop equals the base-256 value of the
corresponding little-endian chunk of the byte buffer. -/
theorem cLimb_eq_chunk (bytes : List Nat) (s i : Nat) :
    cLimb (byteAt bytes) (bytes.length) s i =
      polyNat 256 ((bytes.reverse.drop (i * s)).take s) := by
  rw [polyNat_eq_sum_getD 256 _ s (by simp [List.length_take])]
  unfold cLimb byteAt
  apply Finset.sum_congr rfl
  intro j hj
  rw [Finset.mem_range] at hj
  rw [chunk_getD bytes s i j hj]
  by_cases hin : i * s + j < bytes.length
  · have hc : ((i * s + j : Nat) : Int) < (bytes.length : Int) := by exact_mod_cast hin
    rw [if_pos hc, if_pos hin]
    congr 1
    · congr 1
      omega
    · rw [pow_mul]; norm_num
  · have hc : ¬(((i * s + j : Nat) : Int) < (bytes.length : Int)) := by
      exact_mod_cast hin
    rw [if_neg hc, if_neg hin, Nat.zero_mul]

theorem beToNat_lt (bytes : List Nat) (h : ∀ b ∈ bytes, b < 256) :
    beToNat bytes < 256 ^ bytes.length := by
  have := polyNat_lt 256 bytes.reverse (fun d hd => h d (List.mem_reverse.mp hd))
  simpa [beToNat] using this

theorem beToNat_ge (b0 : Nat) (rest : List Nat) (hb : 1 ≤ b0) :
    256 ^ rest.length ≤ beToNat (b0 :: rest) := by
  unfold beToNat
  rw [List.reverse_cons, polyNat_append, List.length_reverse]
  have h1 : polyNat 256 [b0] = b0 := by simp [polyNat]
  rw [h1]
  have h2 : 256 ^ rest.length * 1 ≤ 256 ^ rest.length * b0 :=
    Nat.mul_le_mul_left _ hb
  omega

theorem ceil_div_mul_ge (len s : Nat) (hs : 1 ≤ s) :
    len ≤ (len + s - 1) / s * s := by
  have h := Nat.div_add_mod (len + s - 1) s
  have hm : (len + s - 1) % s < s := Nat.mod_lt _ (by omega)
  have hcomm : (len + s - 1) / s * s = s * ((len + s - 1) / s) := Nat.mul_comm _ _
  omega

theorem ceil_div_mul_le (len s : Nat) : (len + s - 1) / s * s ≤ len + s - 1 :=
  Nat.div_mul_le_self _ _

theorem ceil_div_succ (len s : Nat) (h1 : 1 ≤ len) (hs : 1 ≤ s) :
    (len + s - 1) / s = (len - 1) / s + 1 := by
  have h : len + s - 1 = (len - 1) + s := by omega
  rw [h, Nat.add_div_right _ (by omega : 0 < s)]

/-- The host's minimal limb count for a canonical magnitude of `len`
bytes is `⌈len/limb_size⌉`. -/
theorem minLimbs_eq (s len M : Nat) (hs : 1 ≤ s) (h1 : 1 ≤ len)
    (hlo : 256 ^ (len - 1) ≤ M) (hhi : M < 256 ^ len) :
    Nat.log (2 ^ (8 * s)) M + 1 = (len + s - 1) / s := by
  have hn1 : (len + s - 1) / s = (len - 1) / s + 1 := ceil_div_succ len s h1 hs
  have hfloor : (len - 1) / s * s ≤ len - 1 := Nat.div_mul_le_self _ _
  have hlow : (2 ^ (8 * s)) ^ ((len + s - 1) / s - 1) ≤ M := by
    calc (2 ^ (8 * s)) ^ ((len + s - 1) / s - 1)
        = 256 ^ (s * ((len + s - 1) / s - 1)) := by
          rw [pow256_eq, ← pow_mul]
      _ ≤ 256 ^ (len - 1) := by
          apply Nat.pow_le_pow_right (by norm_num)
          have : s * ((len + s - 1) / s - 1) = (len - 1) / s * s := by
            rw [hn1]; simp [Nat.mul_comm]
          omega
      _ ≤ M := hlo
  have hhigh : M < (2 ^ (8 * s)) ^ ((len + s - 1) / s) := by
    calc M < 256 ^ len := hhi
      _ ≤ 256 ^ (s * ((len + s - 1) / s)) := by
          apply Nat.pow_le_pow_right (by norm_num)
          have := ceil_div_mul_ge len s hs
          have hcomm : (len + s - 1) / s * s = s * ((len + s - 1) / s) :=
            Nat.mul_comm _ _
          omega
      _ = (2 ^ (8 * s)) ^ ((len + s - 1) / s) := by
          rw [pow256_eq, ← pow_mul]
  have hpos : 1 ≤ (len + s - 1) / s := by
    rw [hn1]; exact Nat.succ_le_succ (Nat.zero_le _)
  have hlog := Nat.log_eq_of_pow_le_of_lt_pow hlow
    (by rwa [Nat.sub_add_cancel hpos])
  omega

/-- The limbs the host hands back for the magnitude `beToNat bytes`
coincide with the chunk values the make path assembled. -/
theorem fill_limb_eq (s : Nat) (hs : 1 ≤ s) (bytes : List Nat)
    (hb : ∀ b ∈ bytes, b < 256) (n : Nat) (hlen : bytes.length ≤ n * s)
    (i : Nat) (hi : i < n) :
    beToNat bytes / (2 ^ (8 * s)) ^ i % (2 ^ (8 * s)) =
      polyNat 256 ((bytes.reverse.drop (i * s)).take s) := by
  have hchunk : ∀ d ∈ (List.range n).map
      (fun i => polyNat 256 ((bytes.reverse.drop (i * s)).take s)), d < 2 ^ (8 * s) := by
    intro d hd
    rw [List.mem_map] at hd
    obtain ⟨i', _, rfl⟩ := hd
    have hsub : ((bytes.reverse.drop (i' * s)).take s).Sublist bytes.reverse :=
      (List.take_sublist _ _).trans (List.drop_sublist _ _)
    have hlt := polyNat_lt 256 ((bytes.reverse.drop (i' * s)).take s)
      (fun x hx => hb x (List.mem_reverse.mp (hsub.mem hx)))
    calc polyNat 256 ((bytes.reverse.drop (i' * s)).take s)
        < 256 ^ ((bytes.reverse.drop (i' * s)).take s).length := hlt
      _ ≤ 256 ^ s := Nat.pow_le_pow_right (by norm_num) (by simp [List.length_take])
      _ = 2 ^ (8 * s) := (pow256_eq s).symm
  have hM : beToNat bytes = polyNat (2 ^ (8 * s)) ((List.range n).map
      (fun i => polyNat 256 ((bytes.reverse.drop (i * s)).take s))) := by
    rw [beToNat, ← polyNat_chunks 256 s n bytes.reverse (by simpa using hlen), pow256_eq]
  have hB : 2 ≤ 2 ^ (8 * s) := by
    calc (2 : Nat) = 2 ^ 1 := (pow_one 2).symm
      _ ≤ 2 ^ (8 * s) := Nat.pow_le_pow_right (by norm_num) (by omega)
  rw [hM, polyNat_div_pow_mod _ hB _ hchunk i]
  have hi' : i < ((List.range n).map
      (fun i => polyNat 256 ((bytes.reverse.drop (i * s)).take s))).length := by
    simpa using hi
  rw [List.getD_eq_getElem?_getD, List.getElem?_eq_getElem hi', List.getElem_map,
    List.getElem_range]
  rfl

/-- Reversing the big-endian serialization of a limb gives its
little-endian byte expansion. -/
theorem limbBytesBE_reverse (s limb : Nat) :
    (limbBytesBE s limb).reverse = (List.range s).map (fun j => limb / 256 ^ j % 256) := by
  apply List.ext_getElem
  · simp [limbBytesBE]
  · intro j h1 h2
    have hj : j < s := by simpa using h2
    have hlen : (limbBytesBE s limb).length = s := by simp [limbBytesBE]
    rw [List.getElem_reverse]
    simp only [limbBytesBE, List.getElem_map, List.getElem_range, List.length_map,
      List.length_range]
    have hidx : s - 1 - (s - 1 - j) = j := by omega
    rw [hidx, pow_mul]
    norm_num

/-- The little-endian byte expansion, padded to the limb width, of a
chunk's value recovers the chunk. -/
theorem leBytes_of_chunk (s : Nat) (cl : List Nat) (hlen : cl.length ≤ s)
    (hb : ∀ d ∈ cl, d < 256) :
    (List.range s).map (fun j => polyNat 256 cl / 256 ^ j % 256) =
      cl ++ List.replicate (s - cl.length) 0 := by
  apply List.ext_getElem
  · simp [hlen]
  · intro j h1 h2
    simp only [List.getElem_map, List.getElem_range]
    rw [polyNat_div_pow_mod 256 (by norm_num) cl hb j]
    by_cases hj : j < cl.length
    · rw [List.getElem_append_left hj, List.getD_eq_getElem?_getD,
        List.getElem?_eq_getElem hj]
      rfl
    · have hge : cl.length ≤ j := Nat.le_of_not_lt hj
      rw [List.getElem_append_right hge, List.getElem_replicate,
        List.getD_eq_getElem?_getD, List.getElem?_eq_none hge]
      rfl

/-- The concatenated little-endian byte expansions of a limb list (proof
helper; `extractBytes` reversed has this shape). -/
def leBlocks (s : Nat) : List Nat → List Nat
  | [] => []
  | l :: ls => (List.range s).map (fun j => l / 256 ^ j % 256) ++ leBlocks s ls

theorem extractBytes_reverse (s : Nat) (limbs : List Nat) :
    (extractBytes s limbs).reverse = leBlocks s limbs := by
  induction limbs with
  | nil => simp [extractBytes, leBlocks]
  | cons l ls ih =>
    have hstep : extractBytes s (l :: ls) = extractBytes s ls ++ limbBytesBE s l := by
      simp [extractBytes, List.reverse_cons, List.map_append, List.flatten_append]
    rw [hstep, List.reverse_append, limbBytesBE_reverse, ih, leBlocks]

/-- Serializing the chunk values of a (reversed) byte list reproduces the
list, zero-padded to a whole number of limbs. -/
theorem leBlocks_chunks (s : Nat) (n : Nat) (le : List Nat)
    (hlen : le.length ≤ n * s) (hb : ∀ d ∈ le, d < 256) :
    leBlocks s ((List.range n).map (fun i => polyNat 256 ((le.drop (i * s)).take s))) =
      le ++ List.replicate (n * s - le.length) 0 := by
  induction n generalizing le with
  | zero =>
    have h0 : le.length = 0 := by simpa using hlen
    have : le = [] := List.eq_nil_of_length_eq_zero h0
    simp [this, leBlocks]
  | succ n ih =>
    rw [List.range_succ_eq_map, List.map_cons, List.map_map]
    have hcomp : ((fun i => polyNat 256 ((le.drop (i * s)).take s)) ∘ Nat.succ) =
        fun i => polyNat 256 (((le.drop s).drop (i * s)).take s) := by
      funext i
      simp only [Function.comp]
      have hms : s + i * s = Nat.succ i * s := by
        rw [Nat.succ_mul, Nat.add_comm]
      rw [List.drop_drop, hms]
    rw [hcomp, leBlocks]
    have hsub0 : (le.take s).Sublist le := List.take_sublist _ _
    have hb0 : ∀ d ∈ (le.drop (0 * s)).take s, d < 256 := by
      intro d hd
      simp only [Nat.zero_mul, List.drop_zero] at hd
      exact hb d (hsub0.mem hd)
    have hfirst : (List.range s).map
        (fun j => polyNat 256 ((le.drop (0 * s)).take s) / 256 ^ j % 256) =
        (le.take s) ++ List.replicate (s - (le.take s).length) 0 := by
      simp only [Nat.zero_mul, List.drop_zero]
      exact leBytes_of_chunk s (le.take s) (by simp [List.length_take]) (by
        intro d hd
        exact hb d (hsub0.mem hd))
    have hbd : ∀ d ∈ le.drop s, d < 256 := fun d hd =>
      hb d ((List.drop_sublist _ _).mem hd)
    have hld : (le.drop s).length ≤ n * s := by
      have hexp : (n + 1) * s = n * s + s := by ring
      simp only [List.length_drop]
      omega
    have hrest := ih (le.drop s) hld hbd
    rw [hfirst, hrest]
    rcases Nat.le_total s le.length with hc | hc
    · have h1 : (le.take s).length = s := by simp [List.length_take, Nat.min_eq_left hc]
      have h2 : (le.drop s).length = le.length - s := by simp
      rw [h1, h2, Nat.sub_self, List.replicate, List.append_nil, ← List.append_assoc,
        List.take_append_drop]
      congr 2
      have hexp : (n + 1) * s = n * s + s := by ring
      omega
    · have h1 : le.take s = le := List.take_of_length_le hc
      have h2 : le.drop s = [] := List.drop_eq_nil_of_le hc
      rw [h1, h2]
      simp only [List.nil_append, List.length_nil, Nat.sub_zero]
      rw [List.append_assoc, ← List.replicate_add]
      congr 2
      have hexp : (n + 1) * s = n * s + s := by ring
      omega

/-- `non_local_exit_clear` on a clean environment is the identity. -/
theorem clear_clean (env : Env) (h : env.pending = none) :
    Host.nonLocalExitClear env = env := by
  cases env
  simp_all [Host.nonLocalExitClear]

/-- `check` on a clean environment yields the literal return envelope and
leaves the environment unchanged. -/
theorem check_clean (env : Env) (h : env.pending = none) :
    check env = (retBase, env) := by
  simp [check, Host.nonLocalExitGet, h, retBase, clear_clean env h]

/-- `check` on an environment with a pending exit captures that exit and
clears it. -/
theorem check_pending (env : Env) (p : Pending) (h : env.pending = some p) :
    check env = (p.toBase, { env with pending := none }) := by
  cases p <;> simp [check, Host.nonLocalExitGet, h, Pending.toBase, Host.nonLocalExitClear]

theorem check_value_clean (env : Env) (h : env.pending = none) (v : EValue) :
    check_value env v = ((retBase, v), env) := by
  simp [check_value, check_clean env h]

theorem check_integer_clean (env : Env) (h : env.pending = none) (n : Int) :
    check_integer env n = ((retBase, n), env) := by
  simp [check_integer, check_clean env h]

/-- A successful `malloc`: yields the next identifier and retains it. -/
theorem mallocE_ok (env : Env) (h : env.heap.failAt env.heap.ctr = false) :
    mallocE env = (some env.heap.ctr, heapOwn env) := by
  simp [mallocE, Heap.alloc, heapOwn, h]

/-- Evaluation of `make_big_integer` on a native host with a working
allocator: it hands the host the limbs of the big-endian byte buffer and
returns the host integer `sign · beToNat bytes` under a return envelope,
with the temporary limb array allocated and freed. -/
theorem make_big_integer_eval (lay : Layout) (env : Env) (sign : Int) (bytes : List Nat)
    (hs : 1 ≤ lay.limbSize)
    (hnm : env.size > lay.off_make_big_integer)
    (hpend : env.pending = none)
    (halloc : ∀ k, env.heap.failAt k = false)
    (hlen : 1 ≤ bytes.length)
    (hsmall : (bytes.length : Int) ≤ INT64_MAX - (lay.limbSize : Int)) :
    make_big_integer lay env sign (byteAt bytes) (bytes.length : Int) =
      ((retBase, .int (sign * (beToNat bytes : Int))), heapBump env) := by
  have hcond : ¬(((bytes.length : Nat) : Int) > INT64_MAX - (lay.limbSize : Int) ∨
      ((bytes.length : Nat) : Int) > PTRDIFF_MAX - (lay.limbSize : Int)) := by
    have hPP : PTRDIFF_MAX = INT64_MAX := by norm_num [PTRDIFF_MAX, INT64_MAX]
    rw [hPP]
    omega
  have hcast : ((bytes.length : Int) + (lay.limbSize : Int) - 1) =
      (((bytes.length + lay.limbSize - 1 : Nat)) : Int) := by
    omega
  have hnl : ((bytes.length : Int) + (lay.limbSize : Int) - 1).tdiv (lay.limbSize : Int) =
      (((bytes.length + lay.limbSize - 1) / lay.limbSize : Nat) : Int) := by
    rw [hcast]
    rfl
  have hma : mallocE env = (some env.heap.ctr,
      { env with heap := { ctr := env.heap.ctr + 1, live := env.heap.ctr :: env.heap.live,
                           failAt := env.heap.failAt } }) := by
    simp [mallocE, Heap.alloc, halloc]
  have hn : bytes.length ≤ (bytes.length + lay.limbSize - 1) / lay.limbSize * lay.limbSize :=
    ceil_div_mul_ge bytes.length lay.limbSize hs
  have hval : polyNat (limbBase lay)
      ((List.range ((bytes.length + lay.limbSize - 1) / lay.limbSize)).map
        (fun i => cLimb (byteAt bytes) (bytes.length : Int) lay.limbSize i)) =
      beToNat bytes := by
    rw [List.map_congr_left (fun i _ => cLimb_eq_chunk bytes lay.limbSize i)]
    have := polyNat_chunks 256 lay.limbSize
      ((bytes.length + lay.limbSize - 1) / lay.limbSize) bytes.reverse
      (by simpa using hn)
    rw [show limbBase lay = 256 ^ lay.limbSize from pow256_eq lay.limbSize, this, beToNat]
  simp only [make_big_integer, if_pos hnm, if_neg hcond, hnl, hma, Int.toNat_natCast,
    Host.makeBigInteger, hpend, Option.isSome_none, Bool.false_eq_true, if_false,
    check_value, check, Host.nonLocalExitGet, Host.nonLocalExitClear, freeE, Heap.freeId,
    hval]
  simp [heapBump, retBase, List.erase_cons_head, hpend]

/-- Evaluation of `extract_big_integer` on a native host applied to the
integer `sign · beToNat bytes` built from a canonical byte buffer: the
host reports the minimal limb count, and the serialization loop returns
the bytes zero-padded on the left to a whole number of limbs.  The
returned buffer stays allocated (ownership passes to the caller). -/
theorem extract_big_integer_eval (lay : Layout) (env : Env) (sign : Int) (bytes : List Nat)
    (hs : 1 ≤ lay.limbSize)
    (hne : env.size > lay.off_extract_big_integer)
    (hpend : env.pending = none)
    (halloc : ∀ k, env.heap.failAt k = false)
    (hsign : sign = 1 ∨ sign = -1)
    (hlen : 1 ≤ bytes.length)
    (hlead : bytes.getD 0 0 ≠ 0)
    (hbytes : ∀ b ∈ bytes, b < 256)
    (hsmall : (bytes.length : Int) + (lay.limbSize : Int) ≤ INT_MAX) :
    extract_big_integer lay env (.int (sign * (beToNat bytes : Int))) =
      ({ base := retBase, sign := sign,
         data := some (env.heap.ctr,
           List.replicate ((bytes.length + lay.limbSize - 1) / lay.limbSize * lay.limbSize
             - bytes.length) 0 ++ bytes),
         size := (((bytes.length + lay.limbSize - 1) / lay.limbSize * lay.limbSize : Nat) : Int) },
       heapOwn env) := by
  have hlo : 256 ^ (bytes.length - 1) ≤ beToNat bytes := by
    cases bytes with
    | nil => simp at hlen
    | cons b0 rest =>
      have hb0 : 1 ≤ b0 := by
        have h := hlead
        simp only [List.getD_cons_zero] at h
        omega
      simpa using beToNat_ge b0 rest hb0
  have hhi := beToNat_lt bytes hbytes
  have hM0 : 0 < beToNat bytes :=
    lt_of_lt_of_le (pow_pos (by norm_num : (0:Nat) < 256) _) hlo
  have habs : (sign * (beToNat bytes : Int)).natAbs = beToNat bytes := by
    rcases hsign with rfl | rfl <;> simp [Int.natAbs_mul]
  have hposZ : (0:Int) < (beToNat bytes : Int) := by exact_mod_cast hM0
  have hsgn : (sign * (beToNat bytes : Int)).sign = sign := by
    rcases hsign with rfl | rfl
    · simpa using Int.sign_eq_one_iff_pos.mpr hposZ
    · rw [neg_one_mul, Int.sign_neg, Int.sign_eq_one_iff_pos.mpr hposZ]
  have hsne : sign ≠ 0 := by rcases hsign with rfl | rfl <;> norm_num
  have hlog : Nat.log (limbBase lay) (beToNat bytes) + 1 =
      (bytes.length + lay.limbSize - 1) / lay.limbSize := by
    have h := minLimbs_eq lay.limbSize bytes.length (beToNat bytes) hs hlen hlo hhi
    simpa [limbBase] using h
  have hns_le : (bytes.length + lay.limbSize - 1) / lay.limbSize * lay.limbSize ≤
      bytes.length + lay.limbSize - 1 := ceil_div_mul_le _ _
  have hlen_ns : bytes.length ≤
      (bytes.length + lay.limbSize - 1) / lay.limbSize * lay.limbSize :=
    ceil_div_mul_ge bytes.length lay.limbSize hs
  have hdiv2 : SIZE_MAX.tdiv 2 = (9223372036854775807 : Int) := by decide
  have hIM : INT_MAX = (2147483647 : Int) := by norm_num [INT_MAX]
  have hcond2 : ¬((((bytes.length + lay.limbSize - 1) / lay.limbSize : Nat) : Int) *
        (lay.limbSize : Int) > INT_MAX ∨
      (((bytes.length + lay.limbSize - 1) / lay.limbSize : Nat) : Int) *
        (lay.limbSize : Int) > SIZE_MAX.tdiv 2) := by
    have hcast : (((bytes.length + lay.limbSize - 1) / lay.limbSize : Nat) : Int) *
        (lay.limbSize : Int) =
        (((bytes.length + lay.limbSize - 1) / lay.limbSize * lay.limbSize : Nat) : Int) := by
      push_cast
      ring
    rw [hcast, hdiv2]
    have h1 : (((bytes.length + lay.limbSize - 1) / lay.limbSize * lay.limbSize : Nat) : Int) ≤
        ((bytes.length + lay.limbSize - 1 : Nat) : Int) := by exact_mod_cast hns_le
    omega
  have hma : mallocE env = (some env.heap.ctr,
      { env with heap := { ctr := env.heap.ctr + 1, live := env.heap.ctr :: env.heap.live,
                           failAt := env.heap.failAt } }) := by
    simp [mallocE, Heap.alloc, halloc]
  have hmap : (List.range ((bytes.length + lay.limbSize - 1) / lay.limbSize)).map
        (fun i => beToNat bytes / (limbBase lay) ^ i % (limbBase lay)) =
      (List.range ((bytes.length + lay.limbSize - 1) / lay.limbSize)).map
        (fun i => polyNat 256 ((bytes.reverse.drop (i * lay.limbSize)).take lay.limbSize)) := by
    apply List.map_congr_left
    intro i hi
    have := fill_limb_eq lay.limbSize hs bytes hbytes
      ((bytes.length + lay.limbSize - 1) / lay.limbSize) hlen_ns i (List.mem_range.mp hi)
    simpa [limbBase] using this
  have hout : extractBytes lay.limbSize
      ((List.range ((bytes.length + lay.limbSize - 1) / lay.limbSize)).map
        (fun i => beToNat bytes / (limbBase lay) ^ i % (limbBase lay))) =
      List.replicate ((bytes.length + lay.limbSize - 1) / lay.limbSize * lay.limbSize
        - bytes.length) 0 ++ bytes := by
    rw [hmap]
    have h1 := extractBytes_reverse lay.limbSize
      ((List.range ((bytes.length + lay.limbSize - 1) / lay.limbSize)).map
        (fun i => polyNat 256 ((bytes.reverse.drop (i * lay.limbSize)).take lay.limbSize)))
    have h2 := leBlocks_chunks lay.limbSize ((bytes.length + lay.limbSize - 1) / lay.limbSize)
      bytes.reverse (by simpa using hlen_ns)
      (fun d hd => hbytes d (List.mem_reverse.mp hd))
    rw [h2] at h1
    rw [List.reverse_eq_iff] at h1
    rw [h1, List.length_reverse, List.reverse_append, List.reverse_replicate,
      List.reverse_reverse]
  simp only [extract_big_integer, if_pos hne, Host.extractBigIntegerProbe, hpend,
    Option.isSome_none, Bool.false_eq_true, if_false, habs, hsgn, hlog]
  simp only [hsne, or_false, if_false, Bool.true_eq_false, false_or, if_neg,
    reduceCtorEq]
  rw [if_neg hcond2, hma]
  have htn : ((((bytes.length + lay.limbSize - 1 : Nat)) : Int) / ((lay.limbSize : Nat) : Int)).toNat
      = (bytes.length + lay.limbSize - 1) / lay.limbSize := by
    rw [← Int.natCast_div, Int.toNat_natCast]
  simp [Host.extractBigIntegerFill, hpend, Option.isSome_none, Bool.false_eq_true,
    if_false, Int.toNat_natCast, htn, habs, hout, Nat.cast_mul, heapOwn, retBase]

/-- `overflow_error` on a clean environment: signals `overflow-error` with
`nil` data, and returns that exit captured and cleared. -/
theorem overflow_error_clean (env : Env) (h : env.pending = none) :
    overflow_error env =
      (⟨.exitSignal, .symbol .overflowErrorSym, .symbol .nilSym⟩, env) := by
  cases env
  simp_all [overflow_error, Host.intern, Host.nonLocalExitSignal, check,
    Host.nonLocalExitGet, Host.nonLocalExitClear]

/-- `unimplemented` on a clean environment: signals the dedicated
`go-unimplemented-error` symbol with `nil` data, captured and cleared. -/
theorem unimplemented_clean (env : Env) (h : env.pending = none) :
    unimplemented env =
      (⟨.exitSignal, .symbol .goUnimplementedError, .symbol .nilSym⟩, env) := by
  cases env
  simp_all [unimplemented, Host.intern, Host.nonLocalExitSignal, check,
    Host.nonLocalExitGet, Host.nonLocalExitClear]

/-- `out_of_memory` on a clean environment: signals `error` with the list
`("Out of memory")` as data, captured and cleared. -/
theorem out_of_memory_clean (env : Env) (h : env.pending = none) :
    out_of_memory env =
      (⟨.exitSignal, .symbol .errorSym, .cons (.str oomMessage) nilV⟩, env) := by
  cases env
  simp_all [out_of_memory, Host.intern, Host.makeString, Host.funcall, Host.buildList,
    Host.nonLocalExitSignal, check, Host.nonLocalExitGet, Host.nonLocalExitClear]

/-- C3 (amended): on a native-big-integer host, the canonical triple
`(sign, bytes, len)` round-trips through `make_big_integer` and
`extract_big_integer` up to zero-padding: the extract returns the same
sign under a return exit, with the byte buffer equal to `bytes` left-padded
with zeros to `⌈len/limb_size⌉·limb_size` bytes (the minimal whole number
of limbs), which equals the original triple exactly when `limb_size`
divides `len`.  Ownership of the returned buffer passes to the caller (it
stays live in the heap), and no exit is left pending. -/
theorem big_integer_roundtrip_padded (lay : Layout) (env : Env) (sign : Int)
    (bytes : List Nat)
    (hs : 1 ≤ lay.limbSize)
    (hnm : env.size > lay.off_make_big_integer)
    (hne : env.size > lay.off_extract_big_integer)
    (hpend : env.pending = none)
    (halloc : ∀ k, env.heap.failAt k = false)
    (hsign : sign = 1 ∨ sign = -1)
    (hlen : 1 ≤ bytes.length)
    (hlead : bytes.getD 0 0 ≠ 0)
    (hbytes : ∀ b ∈ bytes, b < 256)
    (hsmall : (bytes.length : Int) + (lay.limbSize : Int) ≤ INT_MAX) :
    (make_big_integer lay env sign (byteAt bytes) (bytes.length : Int)).1.1 = retBase ∧
    (extract_big_integer lay
        (make_big_integer lay env sign (byteAt bytes) (bytes.length : Int)).2
        (make_big_integer lay env sign (byteAt bytes) (bytes.length : Int)).1.2).1.base
      = retBase ∧
    (extract_big_integer lay
        (make_big_integer lay env sign (byteAt bytes) (bytes.length : Int)).2
        (make_big_integer lay env sign (byteAt bytes) (bytes.length : Int)).1.2).1.sign
      = sign ∧
    (∃ id,
      (extract_big_integer lay
          (make_big_integer lay env sign (byteAt bytes) (bytes.length : Int)).2
          (make_big_integer lay env sign (byteAt bytes) (bytes.length : Int)).1.2).1.data
        = some (id, List.replicate
            ((bytes.length + lay.limbSize - 1) / lay.limbSize * lay.limbSize
              - bytes.length) 0 ++ bytes) ∧
      id ∈ (extract_big_integer lay
          (make_big_integer lay env sign (byteAt bytes) (bytes.length : Int)).2
          (make_big_integer lay env sign (byteAt bytes) (bytes.length : Int)).1.2).2.heap.live) ∧
    (extract_big_integer lay
        (make_big_integer lay env sign (byteAt bytes) (bytes.length : Int)).2
        (make_big_integer lay env sign (byteAt bytes) (bytes.length : Int)).1.2).1.size
      = (((bytes.length + lay.limbSize - 1) / lay.limbSize * lay.limbSize : Nat) : Int) ∧
    (extract_big_integer lay
        (make_big_integer lay env sign (byteAt bytes) (bytes.length : Int)).2
        (make_big_integer lay env sign (byteAt bytes) (bytes.length : Int)).1.2).2.pending
      = none := by
  have hsmall64 : (bytes.length : Int) ≤ INT64_MAX - (lay.limbSize : Int) := by
    have h1 : INT_MAX = (2147483647 : Int) := by norm_num [INT_MAX]
    have h2 : INT64_MAX = (9223372036854775807 : Int) := by norm_num [INT64_MAX]
    omega
  have hmk := make_big_integer_eval lay env sign bytes hs hnm hpend halloc hlen hsmall64
  have hne1 : (heapBump env).size > lay.off_extract_big_integer := by
    simpa [heapBump] using hne
  have hpend1 : (heapBump env).pending = none := by
    simpa [heapBump] using hpend
  have halloc1 : ∀ k, (heapBump env).heap.failAt k = false := by
    intro k
    simpa [heapBump] using halloc k
  have hex := extract_big_integer_eval lay (heapBump env)
    sign bytes hs hne1 hpend1 halloc1 hsign hlen hlead hbytes hsmall
  simp only [hmk, hex]
  simp [heapOwn, heapBump, retBase, hpend]

/-- Concrete layout for an x86-64 host with 64-bit limbs; the offsets and
struct sizes stand in for the true `emacs-module.h` values, of which the
theorems only use the ordering. -/
def bigLay : Layout :=
  { limbSize := 8
    off_extract_big_integer := 100
    off_make_big_integer := 100
    off_extract_time := 100
    off_make_time := 100
    off_make_unibyte_string := 100
    off_open_channel := 100
    sizeof_runtime := 56
    sizeof_env_26 := 880
    sizeof_env_27 := 1032 }

/-- The magnitude `2^64` from the spec's concrete scenario: byte `0x01`
followed by eight `0x00` bytes (canonical: leading byte nonzero). -/
def bytes9 : List Nat := [1, 0, 0, 0, 0, 0, 0, 0, 0]

/-- C3 counterexample: the spec's own scenario
`make_big_integer(+1, [0x01, 0x00 × 8], 9)` on a native host with 8-byte
limbs does NOT round-trip to the same triple: `extract_big_integer`
reports 16 bytes (two whole limbs, the 9 data bytes left-padded with 7
zero bytes), not the original length 9. -/
theorem big_integer_roundtrip_counterexample :
    (extract_big_integer bigLay
        (make_big_integer bigLay cleanEnv 1 (byteAt bytes9) (bytes9.length : Int)).2
        (make_big_integer bigLay cleanEnv 1 (byteAt bytes9) (bytes9.length : Int)).1.2).1.size
      = 16 ∧
    (extract_big_integer bigLay
        (make_big_integer bigLay cleanEnv 1 (byteAt bytes9) (bytes9.length : Int)).2
        (make_big_integer bigLay cleanEnv 1 (byteAt bytes9) (bytes9.length : Int)).1.2).1.size
      ≠ 9 ∧
    (extract_big_integer bigLay
        (make_big_integer bigLay cleanEnv 1 (byteAt bytes9) (bytes9.length : Int)).2
        (make_big_integer bigLay cleanEnv 1 (byteAt bytes9) (bytes9.length : Int)).1.2).1.data
      = some (1, [0, 0, 0, 0, 0, 0, 0, 1, 0, 0, 0, 0, 0, 0, 0, 0]) := by
  have hmk := make_big_integer_eval bigLay cleanEnv 1 bytes9 (by decide) (by decide)
    rfl (fun _ => rfl) (by decide) (by decide)
  have hex := extract_big_integer_eval bigLay (heapBump cleanEnv)
    1 bytes9 (by decide) (by decide) rfl (fun _ => rfl) (Or.inl rfl) (by decide)
    (by decide) (by decide) (by decide)
  simp only [hmk, hex]
  exact ⟨by decide, by decide, by decide⟩

/-- Witness for C3 (amended) at the spec's concrete scenario. -/
theorem big_integer_roundtrip_padded_witness :
    (make_big_integer bigLay cleanEnv 1 (byteAt bytes9) (bytes9.length : Int)).1.1
      = retBase ∧
    (extract_big_integer bigLay
        (make_big_integer bigLay cleanEnv 1 (byteAt bytes9) (bytes9.length : Int)).2
        (make_big_integer bigLay cleanEnv 1 (byteAt bytes9) (bytes9.length : Int)).1.2).1.sign
      = 1 := by
  have h := big_integer_roundtrip_padded bigLay cleanEnv 1 bytes9 (by decide) (by decide)
    (by decide) rfl (fun _ => rfl) (Or.inl rfl) (by decide) (by decide) (by decide)
    (by decide)
  exact ⟨h.1, h.2.2.1⟩

/-- C7: on a native-big-integer host, `make_big_integer` with a byte count
above `INT64_MAX − limb_size` signals `overflow-error` with `nil` data and
performs no allocation (the guard precedes the limb-array `malloc`), and
leaves no exit pending. -/
theorem make_big_integer_overflow_guard (lay : Layout) (env : Env) (sign : Int)
    (data : Nat → Nat) (count : Int)
    (hnative : env.size > lay.off_make_big_integer)
    (hpend : env.pending = none)
    (hsign : sign = 1 ∨ sign = -1)
    (hcount : count > INT64_MAX - (lay.limbSize : Int)) :
    (make_big_integer lay env sign data count).1.1 =
      ⟨.exitSignal, .symbol .overflowErrorSym, .symbol .nilSym⟩ ∧
    (make_big_integer lay env sign data count).2.heap = env.heap ∧
    (make_big_integer lay env sign data count).2.pending = none := by
  have hcond : count > INT64_MAX - (lay.limbSize : Int) ∨
      count > PTRDIFF_MAX - (lay.limbSize : Int) := Or.inl hcount
  simp only [make_big_integer, if_pos hnative, if_pos hcond,
    overflow_error_clean env hpend]
  simp [hpend]

/-- Witness for C7: byte count `INT64_MAX` (far above `INT64_MAX − 8`). -/
theorem make_big_integer_overflow_guard_witness :
    (make_big_integer bigLay cleanEnv 1 (byteAt bytes9) INT64_MAX).1.1 =
      ⟨.exitSignal, .symbol .overflowErrorSym, .symbol .nilSym⟩ ∧
    (make_big_integer bigLay cleanEnv 1 (byteAt bytes9) INT64_MAX).2.heap =
      cleanEnv.heap ∧
    (make_big_integer bigLay cleanEnv 1 (byteAt bytes9) INT64_MAX).2.pending = none :=
  make_big_integer_overflow_guard bigLay cleanEnv 1 (byteAt bytes9) INT64_MAX
    (by decide) rfl (Or.inl rfl) (by decide)

/-! ### `src/init.c` and the `emacs_module_init` of `src/wrappers.c`: the
module entrypoint.  The two files define the same exported symbol but
check different minimum environment versions: `wrappers.c:46` requires
`sizeof (struct emacs_env_27)`, `init.c:30` only
`sizeof (struct emacs_env_26)`. -/

/-- `emacs_module_init` (src/wrappers.c:41-54): runtime size check,
environment acquisition (the environment the runtime hands back is the
`env` argument), minimum-ABI check against `emacs_env_27`, guest init
dispatch, exit reinjection, and unconditional 0. -/
def emacs_module_init (lay : Layout) (rtSize : Nat) (env : Env)
    (guest : Env → ResultWithInfo × Env) : Int × Env :=
  if rtSize < lay.sizeof_runtime then (1, env)
  else if env.size < lay.sizeof_env_27 then (2, env)
  else
    let (r, env) := guest env
    (0, handle_nonlocal_exit env r)

/-- `emacs_module_init` (src/init.c:25-38): identical except that the
minimum-ABI check uses `sizeof (struct emacs_env_26)`. -/
def emacs_module_init_26 (lay : Layout) (rtSize : Nat) (env : Env)
    (guest : Env → ResultWithInfo × Env) : Int × Env :=
  if rtSize < lay.sizeof_runtime then (1, env)
  else if env.size < lay.sizeof_env_26 then (2, env)
  else
    let (r, env) := guest env
    (0, handle_nonlocal_exit env r)

/-- C4 (amended): the wrappers.c entrypoint returns 1 iff the runtime
struct is too small, otherwise 2 iff the environment is below the
`emacs_env_27` minimum, otherwise calls the guest initializer, reinjects
its exit record, and always returns 0; the older init.c entrypoint is
identical but checks against `emacs_env_26` instead of `emacs_env_27`. -/
theorem emacs_module_init_spec :
    (∀ (lay : Layout) (rtSize : Nat) (env : Env) (guest : Env → ResultWithInfo × Env),
      (emacs_module_init lay rtSize env guest).1 = 1 ↔ rtSize < lay.sizeof_runtime) ∧
    (∀ (lay : Layout) (rtSize : Nat) (env : Env) (guest : Env → ResultWithInfo × Env),
      lay.sizeof_runtime ≤ rtSize →
      ((emacs_module_init lay rtSize env guest).1 = 2 ↔ env.size < lay.sizeof_env_27)) ∧
    (∀ (lay : Layout) (rtSize : Nat) (env : Env) (guest : Env → ResultWithInfo × Env),
      lay.sizeof_runtime ≤ rtSize → lay.sizeof_env_27 ≤ env.size →
      emacs_module_init lay rtSize env guest =
        (0, handle_nonlocal_exit (guest env).2 (guest env).1)) ∧
    (∀ (lay : Layout) (rtSize : Nat) (env : Env) (guest : Env → ResultWithInfo × Env),
      lay.sizeof_runtime ≤ rtSize →
      ((emacs_module_init_26 lay rtSize env guest).1 = 2 ↔ env.size < lay.sizeof_env_26)) := by
  refine ⟨?_, ?_, ?_, ?_⟩
  · intro lay rtSize env guest
    unfold emacs_module_init
    split_ifs with h1 h2
    · simp [h1]
    · simp [h1, h2]
    · simp [h1, h2]
  · intro lay rtSize env guest hrt
    unfold emacs_module_init
    rw [if_neg (by omega)]
    split_ifs with h2
    · simp [h2]
    · simp [h2]
  · intro lay rtSize env guest hrt henv
    unfold emacs_module_init
    rw [if_neg (by omega), if_neg (by omega)]
  · intro lay rtSize env guest hrt
    unfold emacs_module_init_26
    rw [if_neg (by omega)]
    split_ifs with h2
    · simp [h2]
    · simp [h2]

/-- A guest initializer that returns normally. -/
def guestReturn : Env → ResultWithInfo × Env :=
  fun env => (⟨.exitReturn, true, .junkV, .junkV⟩, env)

/-- An environment whose `size` sits between the (stand-in) sizes of
`emacs_env_26` and `emacs_env_27`. -/
def envBetween : Env := { cleanEnv with size := 1000 }

/-- C4 counterexample: on an environment whose size is at least
`sizeof (emacs_env_26)` but below `sizeof (emacs_env_27)` (possible
because the version-27 environment appends fields), the init.c entrypoint
returns 0 and proceeds, whereas the claim demands 2 for every size
below the version-27 struct. -/
theorem emacs_module_init_counterexample :
    bigLay.sizeof_runtime ≤ 64 ∧
    envBetween.size < bigLay.sizeof_env_27 ∧
    (emacs_module_init_26 bigLay 64 envBetween guestReturn).1 = 0 ∧
    (emacs_module_init_26 bigLay 64 envBetween guestReturn).1 ≠ 2 := by
  refine ⟨by decide, by decide, ?_, ?_⟩ <;>
    simp [emacs_module_init_26, bigLay, envBetween, cleanEnv, guestReturn,
      handle_nonlocal_exit]

/-- Witness for C4 (amended) at concrete inputs. -/
theorem emacs_module_init_spec_witness :
    ((emacs_module_init bigLay 64 cleanEnv guestReturn).1 = 1 ↔
      64 < bigLay.sizeof_runtime) ∧
    ((emacs_module_init bigLay 64 envBetween guestReturn).1 = 2 ↔
      envBetween.size < bigLay.sizeof_env_27) ∧
    (emacs_module_init bigLay 64 cleanEnv guestReturn =
      (0, handle_nonlocal_exit (guestReturn cleanEnv).2 (guestReturn cleanEnv).1)) ∧
    ((emacs_module_init_26 bigLay 64 envBetween guestReturn).1 = 2 ↔
      envBetween.size < bigLay.sizeof_env_26) := by
  refine ⟨?_, ?_, ?_, ?_⟩
  · exact emacs_module_init_spec.1 bigLay 64 cleanEnv guestReturn
  · exact emacs_module_init_spec.2.1 bigLay 64 envBetween guestReturn (by decide)
  · exact emacs_module_init_spec.2.2.1 bigLay 64 cleanEnv guestReturn (by decide) (by decide)
  · exact emacs_module_init_spec.2.2.2 bigLay 64 envBetween guestReturn (by decide)

/-! ### `src/pipe.c` and `phst_emacs_open_channel` of `src/wrappers.c`. -/

namespace Host

/-- `env->open_channel`.  The theorems only exercise environments on which
the slot is absent, so a neutral model (file descriptor 0) suffices. -/
def openChannel (env : Env) (v : EValue) : Int × Env :=
  if env.pending.isSome then (0, env) else (0, env)

end Host

/-- `struct uintptr_result` (src/pipe.c): envelope plus a `uintptr_t`. -/
structure UintptrResult where
  base : ResultBase
  value : Nat
  deriving Repr

/-- `open_channel` (src/pipe.c:23-38): on hosts with the slot, forward and
map negative descriptors to `UINTPTR_MAX`; otherwise raise
`unimplemented` with value `UINTPTR_MAX` (the 64-bit two's-complement
pattern of −1). -/
def open_channel (lay : Layout) (env : Env) (v : EValue) : UintptrResult × Env :=
  if env.size > lay.off_open_channel then
    let (fd, env) := Host.openChannel env v
    let (b, env) := check env
    ({ base := b, value := if fd < 0 then UINTPTR_MAX else fd.toNat }, env)
  else
    let (b, env) := unimplemented env
    ({ base := b, value := UINTPTR_MAX }, env)

/-- `phst_emacs_open_channel` (src/wrappers.c:345-356): same gate, but the
fallback returns the integer envelope `(unimplemented(env), -1)`. -/
def phst_emacs_open_channel (lay : Layout) (env : Env) (v : EValue) :
    (ResultBase × Int) × Env :=
  if env.size > lay.off_open_channel then
    let (fd, env) := Host.openChannel env v
    check_integer env fd
  else
    let (b, env) := unimplemented env
    ((b, -1), env)

/-- C9: on an environment whose `size` does not exceed the offset of the
`open_channel` slot, `open_channel` yields the `go-unimplemented-error`
signal with `nil` data; the payload is −1 (`phst_emacs_open_channel`) or
its 64-bit pattern `UINTPTR_MAX = 2^64 − 1` (`open_channel` of pipe.c),
and no exit is left pending. -/
theorem open_channel_unimplemented (lay : Layout) (env : Env) (v : EValue)
    (hgate : env.size ≤ lay.off_open_channel) (hpend : env.pending = none) :
    (phst_emacs_open_channel lay env v).1 =
      (⟨.exitSignal, .symbol .goUnimplementedError, .symbol .nilSym⟩, -1) ∧
    (phst_emacs_open_channel lay env v).2.pending = none ∧
    (open_channel lay env v).1 =
      ⟨⟨.exitSignal, .symbol .goUnimplementedError, .symbol .nilSym⟩, UINTPTR_MAX⟩ ∧
    (open_channel lay env v).2.pending = none := by
  have hneg : ¬(env.size > lay.off_open_channel) := by omega
  refine ⟨?_, ?_, ?_, ?_⟩ <;>
    simp [phst_emacs_open_channel, open_channel, hneg, unimplemented_clean env hpend, hpend]

/-- An environment whose `size` predates every optional slot of the
stand-in layout. -/
def smallEnv : Env := { cleanEnv with size := 50 }

/-- Witness for C9 on a concrete pre-open_channel environment. -/
theorem open_channel_unimplemented_witness :
    (phst_emacs_open_channel bigLay smallEnv (.int 5)).1 =
      (⟨.exitSignal, .symbol .goUnimplementedError, .symbol .nilSym⟩, -1) ∧
    (phst_emacs_open_channel bigLay smallEnv (.int 5)).2.pending = none ∧
    (open_channel bigLay smallEnv (.int 5)).1 =
      ⟨⟨.exitSignal, .symbol .goUnimplementedError, .symbol .nilSym⟩, UINTPTR_MAX⟩ ∧
    (open_channel bigLay smallEnv (.int 5)).2.pending = none :=
  open_channel_unimplemented bigLay smallEnv (.int 5) (by decide) rfl

/-! ### `src/string.c`: string copy-out and unibyte construction. -/

namespace Host

/-- `env->copy_string_contents`: a no-op on a pending exit; otherwise its
outcome is scripted by the environment's `csQueue` (the host may fail any
call by signalling, or succeed reporting the required size and — for a
filling call — the bytes written).  An exhausted script behaves as a
wrong-type failure. -/
def copyStringContents (env : Env) (v : EValue) : (Bool × Int × List Nat) × Env :=
  if env.pending.isSome then ((false, 0, []), env)
  else
    match env.csQueue with
    | [] => ((false, 0, []),
        nonLocalExitSignal { env with csQueue := [] } (.symbol .wrongTypeArgument) nilV)
    | .failR p :: rest => ((false, 0, []), { env with csQueue := rest, pending := some p })
    | .okR s c :: rest => ((true, s, c), { env with csQueue := rest })

end Host

/-- `struct string_result`: envelope, malloc'd buffer (id and contents;
`none` is NULL), and its size. -/
structure StringResult where
  base : ResultBase
  data : Option (Nat × List Nat)
  size : Int
  deriving Repr

/-- `copy_string_contents` (src/string.c:27-52 =
src/wrappers.c:228-254): two-pass size probe with a NULL buffer, empty
string short-circuit, `size >= INT_MAX` overflow check, allocation, second
filling call, and free-on-failure. -/
def copy_string_contents (env : Env) (v : EValue) : StringResult × Env :=
  let ((ok, size, _), env) := Host.copyStringContents env v
  if ok = false then
    let (b, env) := check env
    ({ base := b, data := none, size := 0 }, env)
  else if size = 0 then
    ({ base := retBase, data := none, size := 0 }, env)
  else if size ≥ INT_MAX then
    let (b, env) := overflow_error env
    ({ base := b, data := none, size := 0 }, env)
  else
    match mallocE env with
    | (none, env) =>
      let (b, env) := out_of_memory env
      ({ base := b, data := none, size := 0 }, env)
    | (some id, env) =>
      let ((ok2, size2, content), env) := Host.copyStringContents env v
      if ok2 = false then
        let env := freeE env id
        let (b, env) := check env
        ({ base := b, data := none, size := 0 }, env)
      else
        ({ base := retBase, data := some (id, content), size := size2 - 1 }, env)

/-- C5: the behaviour of `copy_string_contents` per probe outcome: a probe
reporting 0 returns a clean empty result with a NULL buffer; a probed size
at or above `INT_MAX` returns the overflow exit with no buffer; on success
the malloc'd buffer holds exactly what the host wrote (the string bytes
with their trailing NUL, on a real host) together with `size − 1`, and the
buffer is owned by the caller (live); if the filling call fails, the
freshly allocated buffer is freed (the live set is unchanged) and the
captured exit is returned with a NULL buffer.  No exit is left pending. -/
theorem copy_string_contents_spec :
    (∀ (env : Env) (v : EValue) (c : List Nat) (rest : List CSResp),
      env.pending = none → env.csQueue = .okR 0 c :: rest →
      copy_string_contents env v =
        ({ base := retBase, data := none, size := 0 }, { env with csQueue := rest })) ∧
    (∀ (env : Env) (v : EValue) (s : Int) (c : List Nat) (rest : List CSResp),
      env.pending = none → env.csQueue = .okR s c :: rest → s ≥ INT_MAX →
      (copy_string_contents env v).1 =
        { base := ⟨.exitSignal, .symbol .overflowErrorSym, .symbol .nilSym⟩,
          data := none, size := 0 } ∧
      (copy_string_contents env v).2.pending = none) ∧
    (∀ (env : Env) (v : EValue) (bytes c1 : List Nat) (rest : List CSResp),
      env.pending = none →
      env.csQueue = .okR ((bytes.length : Int) + 1) c1 ::
        .okR ((bytes.length : Int) + 1) (bytes ++ [0]) :: rest →
      ((bytes.length : Int) + 1) < INT_MAX →
      env.heap.failAt env.heap.ctr = false →
      (copy_string_contents env v).1 =
        { base := retBase, data := some (env.heap.ctr, bytes ++ [0]),
          size := (bytes.length : Int) } ∧
      env.heap.ctr ∈ (copy_string_contents env v).2.heap.live ∧
      (copy_string_contents env v).2.pending = none) ∧
    (∀ (env : Env) (v : EValue) (s : Int) (c1 : List Nat) (p : Pending) (rest : List CSResp),
      env.pending = none →
      env.csQueue = .okR s c1 :: .failR p :: rest →
      0 < s → s < INT_MAX →
      env.heap.failAt env.heap.ctr = false →
      (copy_string_contents env v).1 =
        { base := p.toBase, data := none, size := 0 } ∧
      (copy_string_contents env v).2.heap.live = env.heap.live ∧
      (copy_string_contents env v).2.pending = none) := by
  refine ⟨?_, ?_, ?_, ?_⟩
  · intro env v c rest hpend hq
    simp [copy_string_contents, Host.copyStringContents, hpend, hq]
  · intro env v s c rest hpend hq hbig
    have hs0 : ¬(s = 0) := by
      have : (0:Int) < INT_MAX := by norm_num [INT_MAX]
      omega
    constructor <;>
      simp [copy_string_contents, Host.copyStringContents, hpend, hq, hs0, hbig,
        overflow_error, Host.intern, Host.nonLocalExitSignal, check,
        Host.nonLocalExitGet, Host.nonLocalExitClear]
  · intro env v bytes c1 rest hpend hq hsmall hheap
    have hs0 : ¬((bytes.length : Int) + 1 = 0) := by omega
    have hsge : ¬((bytes.length : Int) + 1 ≥ INT_MAX) := by omega
    refine ⟨?_, ?_, ?_⟩ <;>
      simp [copy_string_contents, Host.copyStringContents, hpend, hq, hs0, hsge,
        mallocE, Heap.alloc, hheap]
  · intro env v s c1 p rest hpend hq hpos hsmall hheap
    have hs0 : ¬(s = 0) := by omega
    have hsge : ¬(s ≥ INT_MAX) := by omega
    refine ⟨?_, ?_, ?_⟩ <;>
      cases p <;>
      simp [copy_string_contents, Host.copyStringContents, hpend, hq, hs0, hsge,
        mallocE, Heap.alloc, hheap, freeE, Heap.freeId, check, Host.nonLocalExitGet,
        Host.nonLocalExitClear, Pending.toBase, List.erase_cons_head]

/-- Host script: a probe reporting size 0. -/
def csEnv0 : Env := { cleanEnv with csQueue := [.okR 0 []] }

/-- Host script: a probe reporting `INT_MAX`. -/
def csEnvBig : Env := { cleanEnv with csQueue := [.okR INT_MAX []] }

/-- Host script: probe and fill for the two bytes `"ab"` plus NUL. -/
def csEnvAB : Env :=
  { cleanEnv with csQueue :=
      [.okR ((([97, 98] : List Nat).length : Int) + 1) [],
       .okR ((([97, 98] : List Nat).length : Int) + 1) ([97, 98] ++ [0])] }

/-- Host script: successful probe, then a failing fill. -/
def csEnvFail : Env :=
  { cleanEnv with csQueue :=
      [.okR 3 [], .failR (.signalP (.symbol .errorSym) nilV)] }

/-- Witness for C5 on concrete scripted environments: the four probe/fill
outcomes. -/
theorem copy_string_contents_spec_witness :
    (copy_string_contents csEnv0 (.opaqueV 0) =
      ({ base := retBase, data := none, size := 0 }, { csEnv0 with csQueue := [] })) ∧
    ((copy_string_contents csEnvBig (.opaqueV 0)).1 =
      { base := ⟨.exitSignal, .symbol .overflowErrorSym, .symbol .nilSym⟩,
        data := none, size := 0 }) ∧
    ((copy_string_contents csEnvAB (.opaqueV 0)).1 =
      { base := retBase, data := some (csEnvAB.heap.ctr, [97, 98] ++ [0]),
        size := (([97, 98] : List Nat).length : Int) }) ∧
    ((copy_string_contents csEnvFail (.opaqueV 0)).1 =
      { base := Pending.toBase (.signalP (.symbol .errorSym) nilV),
        data := none, size := 0 } ∧
      (copy_string_contents csEnvFail (.opaqueV 0)).2.heap.live =
        csEnvFail.heap.live) := by
  refine ⟨?_, ?_, ?_, ?_⟩
  · exact copy_string_contents_spec.1 csEnv0 (.opaqueV 0) [] [] rfl rfl
  · exact (copy_string_contents_spec.2.1 csEnvBig (.opaqueV 0) INT_MAX [] [] rfl rfl
      (le_refl INT_MAX)).1
  · exact (copy_string_contents_spec.2.2.1 csEnvAB (.opaqueV 0) [97, 98] [] [] rfl rfl
      (by norm_num [INT_MAX]) rfl).1
  · have h := copy_string_contents_spec.2.2.2 csEnvFail (.opaqueV 0) 3 []
      (.signalP (.symbol .errorSym) nilV) [] rfl rfl (by norm_num)
      (by norm_num [INT_MAX]) rfl
    exact ⟨h.1, h.2.1⟩

namespace Host

/-- `env->make_unibyte_string` (the native slot present from version 28
on): builds a unibyte string directly from the byte buffer. -/
def makeUnibyteString (env : Env) (data : Nat → Nat) (size : Int) : EValue × Env :=
  if env.pending.isSome then (.junkV, env)
  else (.str ((List.range size.toNat).map data), env)

end Host

/-- A successful shim `make_integer`: the host builds the integer and
`check_value` observes the clean exit state; only the host-call counter
advances. -/
theorem make_integer_ok (env : Env) (x : Int) (hpend : env.pending = none)
    (hok : env.miFail env.miCalls = none) :
    make_integer env x = ((retBase, .int x), { env with miCalls := env.miCalls + 1 }) := by
  simp [make_integer, Host.makeInteger, hpend, hok, check_value, check,
    Host.nonLocalExitGet, Host.nonLocalExitClear, retBase]

/-- A failing shim `make_integer`: the host signals `p`; `check_value`
captures and clears it, so the envelope carries `p` and no exit stays
pending. -/
theorem make_integer_fail (env : Env) (x : Int) (p : Pending)
    (hpend : env.pending = none) (hf : env.miFail env.miCalls = some p) :
    make_integer env x = ((p.toBase, .junkV), { env with miCalls := env.miCalls + 1 }) := by
  cases p <;>
    simp [make_integer, Host.makeInteger, hpend, hf, check_value, check,
      Host.nonLocalExitGet, Host.nonLocalExitClear, Pending.toBase]

/-- The per-byte loop of the unibyte fallback (src/string.c:82-90): build
a host integer for each byte, aborting with the failed result as soon as
one construction reports a non-return exit. -/
def unibyteLoop (data : Nat → Nat) (i : Nat) (env : Env) :
    Nat → (Option (ResultBase × EValue) × List EValue × Env)
  | 0 => (none, [], env)
  | n + 1 =>
    let (byte, env') := make_integer env (data i)
    if byte.1.exit ≠ .exitReturn then (some byte, [], env')
    else
      let (r, vs, env'') := unibyteLoop data (i + 1) env' n
      (r, byte.2 :: vs, env'')

/-- `free` of a possibly NULL args pointer. -/
def freeOpt (env : Env) : Option Nat → Env
  | none => env
  | some id => freeE env id

/-- `make_unibyte_string` (src/string.c:62-95): `PTRDIFF_MAX` size guard,
native forward on supporting hosts, otherwise a `calloc`'d argument
array, the per-byte loop (freeing and propagating the failed result on a
per-byte failure), a `unibyte-string` funcall, free, and check. -/
def make_unibyte_string (lay : Layout) (env : Env) (data : Nat → Nat) (size : Int) :
    (ResultBase × EValue) × Env :=
  if size > PTRDIFF_MAX then
    let (b, env) := overflow_error env
    ((b, .junkV), env)
  else if env.size > lay.off_make_unibyte_string then
    let (v, env) := Host.makeUnibyteString env data size
    check_value env v
  else
    let (argsId, env) := mallocE env
    if argsId.isNone ∧ 0 < size then
      let (b, env) := out_of_memory env
      ((b, .junkV), env)
    else
      let (err, args, env) := unibyteLoop data 0 env size.toNat
      match err with
      | some byte =>
        let env := freeOpt env argsId
        (byte, env)
      | none =>
        let (usym, env) := Host.intern env .unibyteStringSym
        let (rv, env) := Host.funcall env usym args
        let env := freeOpt env argsId
        check_value env rv

/-- The loop aborts at the first failing host `make_integer`: with the
first `k` constructions succeeding and the `k`-th failing with `p`, the
loop returns the captured `p` envelope having made exactly `k + 1` host
`make_integer` calls, with heap, queue and pending state untouched. -/
theorem unibyteLoop_fail (data : Nat → Nat) (k : Nat) (p : Pending) :
    ∀ (env : Env) (i fuel : Nat),
      env.pending = none →
      (∀ j, j < k → env.miFail (env.miCalls + j) = none) →
      env.miFail (env.miCalls + k) = some p →
      k < fuel →
      (unibyteLoop data i env fuel).1 = some (p.toBase, .junkV) ∧
      (unibyteLoop data i env fuel).2.2 = { env with miCalls := env.miCalls + k + 1 } := by
  induction k with
  | zero =>
    intro env i fuel hpend hprev hfail hk
    cases fuel with
    | zero => omega
    | succ n =>
      have hf : env.miFail env.miCalls = some p := by simpa using hfail
      have hne : p.toBase.exit ≠ FuncallExit.exitReturn := by
        cases p <;> simp [Pending.toBase]
      simp [unibyteLoop, make_integer_fail env (data i) p hpend hf, hne]
  | succ k ih =>
    intro env i fuel hpend hprev hfail hk
    cases fuel with
    | zero => omega
    | succ n =>
      have hok : env.miFail env.miCalls = none := by simpa using hprev 0 (by omega)
      have hmk := make_integer_ok env (data i) hpend hok
      have hprev1 : ∀ j, j < k →
          ({ env with miCalls := env.miCalls + 1 } : Env).miFail
            (({ env with miCalls := env.miCalls + 1 } : Env).miCalls + j) = none := by
        intro j hj
        have := hprev (j + 1) (by omega)
        simpa [Nat.add_assoc, Nat.add_comm, Nat.add_left_comm] using this
      have hfail1 : ({ env with miCalls := env.miCalls + 1 } : Env).miFail
          (({ env with miCalls := env.miCalls + 1 } : Env).miCalls + k) = some p := by
        have := hfail
        simpa [Nat.add_assoc, Nat.add_comm, Nat.add_left_comm] using this
      have hrec := ih { env with miCalls := env.miCalls + 1 } (i + 1) n
        (by simpa using hpend) hprev1 hfail1 (by omega)
      have hretne : ¬(retBase.exit ≠ FuncallExit.exitReturn) := by simp [retBase]
      refine ⟨?_, ?_⟩ <;>
        simp [unibyteLoop, hmk, hretne, hrec.1, hrec.2, Nat.add_assoc] <;>
        omega

/-- C8: in the unibyte fallback path, if building the host integer for
byte `k` fails with exit `p` (all earlier bytes succeeding), then
`make_unibyte_string` frees the temporary argument array (the live set is
unchanged), returns exactly the captured exit `p`, performs no host
`make_integer` calls for the remaining bytes (exactly `k + 1` calls are
made), and leaves no exit pending. -/
theorem make_unibyte_string_fail_propagates (lay : Layout) (env : Env)
    (data : Nat → Nat) (size : Int) (k : Nat) (p : Pending)
    (hpend : env.pending = none)
    (hgate : env.size ≤ lay.off_make_unibyte_string)
    (hsz : 0 ≤ size) (hszmax : size ≤ PTRDIFF_MAX)
    (hheap : env.heap.failAt env.heap.ctr = false)
    (hmi : env.miCalls = 0)
    (hk : (k : Int) < size)
    (hprev : ∀ j, j < k → env.miFail j = none)
    (hfail : env.miFail k = some p) :
    (make_unibyte_string lay env data size).1 = (p.toBase, .junkV) ∧
    (make_unibyte_string lay env data size).2.heap.live = env.heap.live ∧
    (make_unibyte_string lay env data size).2.miCalls = k + 1 ∧
    (make_unibyte_string lay env data size).2.pending = none := by
  have hnbig : ¬(size > PTRDIFF_MAX) := by omega
  have hngate : ¬(env.size > lay.off_make_unibyte_string) := by omega
  have hfuel : k < size.toNat := by omega
  have hloop := unibyteLoop_fail data k p (heapOwn env) 0 size.toNat
    (by simpa [heapOwn] using hpend)
    (by intro j hj; simpa [heapOwn, hmi] using hprev j hj)
    (by simpa [heapOwn, hmi] using hfail)
    hfuel
  simp only [heapOwn, hpend, hmi] at hloop
  refine ⟨?_, ?_, ?_, ?_⟩ <;>
    simp [make_unibyte_string, hnbig, hngate, mallocE_ok env hheap, heapOwn, hpend, hmi,
      hloop.1, hloop.2, freeOpt, freeE, Heap.freeId, List.erase_cons_head]

/-- An environment on a pre-`make_unibyte_string` host whose host
`make_integer` fails on the second call. -/
def miEnv : Env :=
  { smallEnv with miFail := fun j =>
      if j = 1 then some (.signalP (.symbol .errorSym) nilV) else none }

/-- Witness for C8: three bytes, the second integer construction fails. -/
theorem make_unibyte_string_fail_propagates_witness :
    (make_unibyte_string bigLay miEnv (fun i => i) 3).1 =
      (Pending.toBase (.signalP (.symbol .errorSym) nilV), .junkV) ∧
    (make_unibyte_string bigLay miEnv (fun i => i) 3).2.heap.live = miEnv.heap.live ∧
    (make_unibyte_string bigLay miEnv (fun i => i) 3).2.miCalls = 1 + 1 ∧
    (make_unibyte_string bigLay miEnv (fun i => i) 3).2.pending = none := by
  have h := make_unibyte_string_fail_propagates bigLay miEnv (fun i => i) 3 1
    (.signalP (.symbol .errorSym) nilV) rfl (by decide) (by decide) (by decide) rfl rfl
    (by decide)
    (by
      intro j hj
      have hj0 : j = 0 := Nat.lt_one_iff.mp hj
      subst hj0
      decide)
    (by decide)
  exact h

/-! ### `src/time.c`: time marshalling with the pre-version-27 list
fallback. -/

namespace Host

/-- `env->extract_time` (native slot; the theorems only exercise the
fallback, so a neutral model suffices). -/
def extractTime (env : Env) (v : EValue) : (Int × Int) × Env := ((0, 0), env)

/-- `env->make_time` (native slot; not exercised by the theorems). -/
def makeTime (env : Env) (sec nsec : Int) : EValue × Env := (.opaqueV 0, env)

end Host

/-- The 4-iteration part-collection loop of `extract_time`
(src/time.c:41-45): take the `car`, extract it, advance to the `cdr`, and
stop early when the remainder is `nil`.  Missing trailing elements keep
their 0 default via `List.getD`. -/
def timePartsLoop (carS cdrS : EValue) (l : EValue) (env : Env) :
    Nat → List Int × Env
  | 0 => ([], env)
  | n + 1 =>
    let (cv, env) := Host.funcall env carS [l]
    let (p, env) := Host.extractInteger env cv
    let (l', env) := Host.funcall env cdrS [l]
    let (nn, env) := Host.isNotNil env l'
    if nn then
      let (ps, env') := timePartsLoop carS cdrS l' env n
      (p :: ps, env')
    else ([p], env)

/-- `extract_time` (src/time.c:30-58): native forward on supporting
hosts; otherwise call `seconds-to-time`, collect up to four integer parts
`(high, low, micro, pico)`, compute `tv_sec = high·65536 + low` with
checked 64-bit overflow (signalling `overflow-error` and returning an
unspecified value on overflow) and `tv_nsec = micro·1000 + pico/1000`. -/
def extract_time (lay : Layout) (env : Env) (v : EValue) : (Int × Int) × Env :=
  if env.size > lay.off_extract_time then
    Host.extractTime env v
  else
    let (stt, env) := Host.intern env .secondsToTimeSym
    let (lst, env) := Host.funcall env stt [v]
    let (carS, env) := Host.intern env .carSym
    let (cdrS, env) := Host.intern env .cdrSym
    let (parts, env) := timePartsLoop carS cdrS lst env 4
    let p0 := parts.getD 0 0
    let p1 := parts.getD 1 0
    let p2 := parts.getD 2 0
    let p3 := parts.getD 3 0
    if p0 * 65536 < INT64_MIN ∨ p0 * 65536 > INT64_MAX ∨
        p0 * 65536 + p1 < INT64_MIN ∨ p0 * 65536 + p1 > INT64_MAX then
      let (os, env) := Host.intern env .overflowErrorSym
      let (nl, env) := Host.intern env .nilSym
      ((0, 0), Host.nonLocalExitSignal env os nl)
    else
      ((p0 * 65536 + p1, p2 * 1000 + Int.tdiv p3 1000), env)

/-- `make_time` (src/time.c:60-81): native forward on supporting hosts;
otherwise split `tv_sec` with `imaxdiv` (truncating division, remainder
adjusted into `[0, 65536)`), split `tv_nsec` with `ldiv` into
microseconds and a picosecond component, and build the 4-element list. -/
def make_time (lay : Layout) (env : Env) (sec nsec : Int) : EValue × Env :=
  if env.size > lay.off_make_time then
    Host.makeTime env sec nsec
  else
    let q0 := Int.tdiv sec 65536
    let r0 := Int.tmod sec 65536
    let q := if r0 < 0 then q0 - 1 else q0
    let r := if r0 < 0 then r0 + 65536 else r0
    let nq := Int.tdiv nsec 1000
    let nr := Int.tmod nsec 1000
    let (a0, env) := Host.makeInteger env q
    let (a1, env) := Host.makeInteger env r
    let (a2, env) := Host.makeInteger env nq
    let (a3, env) := Host.makeInteger env (nr * 1000)
    let (lsym, env) := Host.intern env .listSym
    Host.funcall env lsym [a0, a1, a2, a3]

/-- Bounds of truncating remainder by a positive modulus. -/
theorem tmod_pos_bounds (a : Int) (b : Nat) (hb : 0 < b) :
    -(b : Int) < a.tmod b ∧ a.tmod b < b := by
  constructor
  · cases a with
    | ofNat m =>
      have h0 : (0 : Int) ≤ Int.tmod (Int.ofNat m) b :=
        Int.tmod_nonneg _ (Int.ofNat_nonneg m)
      have hbpos : (0 : Int) < b := by exact_mod_cast hb
      omega
    | negSucc m =>
      have hmod : (m + 1) % b < b := Nat.mod_lt _ hb
      show -(b : Int) < Int.tmod (Int.negSucc m) (Int.ofNat b)
      simp only [Int.tmod, Int.ofNat_eq_natCast, Nat.succ_eq_add_one]
      omega
  · exact Int.tmod_lt_of_pos a (by exact_mod_cast hb)

/-- C6 (amended): the `make_time` fallback splits `tv_sec` by 65536 with
the remainder adjusted into `[0, 65536)` and `tv_nsec` into microseconds
and a `·1000` picosecond component, building the 4-element list; at
`(tv_sec = 86401, tv_nsec = 500000000)` the list is `(1 20865 500000 0)`
(86401 = 1·65536 + 20865), and a subsequent `extract_time` of that list
through the fallback yields `(86401, 500000000)`. -/
theorem make_time_fallback_spec :
    (∀ (lay : Layout) (env : Env) (sec nsec : Int),
      env.size ≤ lay.off_make_time → env.pending = none →
      (∀ j, env.miFail j = none) →
      0 ≤ nsec → nsec < 1000000000 →
      ∃ q r, sec = 65536 * q + r ∧ 0 ≤ r ∧ r < 65536 ∧
        (make_time lay env sec nsec).1 =
          Host.buildList [.int q, .int r, .int (Int.tdiv nsec 1000),
            .int (Int.tmod nsec 1000 * 1000)]) ∧
    ((make_time bigLay smallEnv 86401 500000000).1 =
      Host.buildList [.int 1, .int 20865, .int 500000, .int 0]) ∧
    ((extract_time bigLay smallEnv
        (Host.buildList [.int 1, .int 20865, .int 500000, .int 0])).1 =
      (86401, 500000000)) := by
  refine ⟨?_, by decide, by decide⟩
  intro lay env sec nsec hgate hpend hmi hn0 hn1
  have hngate : ¬(env.size > lay.off_make_time) := by omega
  have hid := Int.tdiv_add_tmod sec 65536
  have hbounds := tmod_pos_bounds sec 65536 (by norm_num)
  refine ⟨if Int.tmod sec 65536 < 0 then Int.tdiv sec 65536 - 1 else Int.tdiv sec 65536,
    if Int.tmod sec 65536 < 0 then Int.tmod sec 65536 + 65536 else Int.tmod sec 65536,
    ?_, ?_, ?_, ?_⟩
  · split_ifs with hneg
    · push_cast at hbounds
      ring_nf
      omega
    · omega
  · split_ifs with hneg
    · push_cast at hbounds
      omega
    · omega
  · split_ifs with hneg
    · push_cast at hbounds
      omega
    · push_cast at hbounds
      omega
  · simp only [make_time, hngate, if_false]
    simp [Host.makeInteger, Host.intern, Host.funcall, hpend, hmi]

/-- C6 counterexample: the claim's concrete list `(1, 20737, 500000, 0)`
is wrong — the fallback at `{tv_sec: 86401, tv_nsec: 500000000}` builds
`(1, 20865, 500000, 0)`, since `86401 − 65536 = 20865` (the claimed
`20737` would decode to 86273). -/
theorem make_time_fallback_counterexample :
    (make_time bigLay smallEnv 86401 500000000).1 =
      Host.buildList [.int 1, .int 20865, .int 500000, .int 0] ∧
    (make_time bigLay smallEnv 86401 500000000).1 ≠
      Host.buildList [.int 1, .int 20737, .int 500000, .int 0] := by
  constructor <;> decide

/-- Witness for C6 (amended) at the spec's concrete time value. -/
theorem make_time_fallback_spec_witness :
    (∃ q r, (86401 : Int) = 65536 * q + r ∧ 0 ≤ r ∧ r < 65536 ∧
      (make_time bigLay smallEnv 86401 500000000).1 =
        Host.buildList [.int q, .int r, .int (Int.tdiv 500000000 1000),
          .int (Int.tmod 500000000 1000 * 1000)]) ∧
    ((extract_time bigLay smallEnv
        (Host.buildList [.int 1, .int 20865, .int 500000, .int 0])).1 =
      (86401, 500000000)) :=
  ⟨make_time_fallback_spec.1 bigLay smallEnv 86401 500000000 (by decide) rfl
      (fun _ => rfl) (by norm_num) (by norm_num),
    make_time_fallback_spec.2.2⟩

/-! ### Claim C10: every envelope-returning operation clears the pending
exit before returning. -/

/-- Any operation that ends in `check` leaves no pending exit; stated for
`check` itself (definitional, thanks to structure eta). -/
theorem check_pending_none (env : Env) : (check env).2.pending = none := rfl

theorem check_value_pending_none (env : Env) (v : EValue) :
    (check_value env v).2.pending = none := rfl

theorem check_integer_pending_none (env : Env) (n : Int) :
    (check_integer env n).2.pending = none := rfl

theorem out_of_memory_pending_none (env : Env) :
    (out_of_memory env).2.pending = none := rfl

theorem overflow_error_pending_none (env : Env) :
    (overflow_error env).2.pending = none := rfl

theorem unimplemented_pending_none (env : Env) :
    (unimplemented env).2.pending = none := rfl

theorem make_integer_pending_none (env : Env) (x : Int) :
    (make_integer env x).2.pending = none := rfl

theorem extract_integer_pending_none (env : Env) (v : EValue) :
    (extract_integer env v).2.pending = none := rfl

/-- The per-byte loop, when it aborts with a failed result, has just run
the failing `make_integer`, whose `check` cleared the exit. -/
theorem unibyteLoop_pending_none (data : Nat → Nat) :
    ∀ (fuel : Nat) (env : Env) (i : Nat) (b : ResultBase × EValue),
      (unibyteLoop data i env fuel).1 = some b →
      (unibyteLoop data i env fuel).2.2.pending = none := by
  intro fuel
  induction fuel with
  | zero => intro env i b h; simp [unibyteLoop] at h
  | succ n ih =>
    intro env i b h
    by_cases hex : (make_integer env (data i)).1.1.exit ≠ FuncallExit.exitReturn
    · simp [unibyteLoop, hex, make_integer_pending_none]
    · simp only [unibyteLoop, hex, if_false] at h ⊢
      exact ih (make_integer env (data i)).2 (i + 1) b h

theorem copy_string_contents_pending_none (env : Env) (v : EValue) :
    (copy_string_contents env v).2.pending = none := by
  rcases henv : env.pending with _ | p
  · rcases hq : env.csQueue with _ | ⟨r1, rest1⟩
    · simp [copy_string_contents, Host.copyStringContents, henv, hq,
        check_pending_none]
    · cases r1 with
      | failR p =>
        simp [copy_string_contents, Host.copyStringContents, henv, hq,
          check_pending_none]
      | okR s c =>
        by_cases hs0 : s = 0
        · simp [copy_string_contents, Host.copyStringContents, henv, hq, hs0]
        · by_cases hsge : s ≥ INT_MAX
          · simp [copy_string_contents, Host.copyStringContents, henv, hq, hs0, hsge,
              overflow_error_pending_none]
          · by_cases hfa : env.heap.failAt env.heap.ctr
            · simp [copy_string_contents, Host.copyStringContents, henv, hq, hs0, hsge,
                mallocE, Heap.alloc, hfa, out_of_memory_pending_none]
            · rcases hrest : rest1 with _ | ⟨r2, rest2⟩ <;>
                [skip; cases r2] <;>
                simp [copy_string_contents, Host.copyStringContents, henv, hq, hs0,
                  hsge, mallocE, Heap.alloc, hfa, hrest, check_pending_none,
                  freeE, Heap.freeId]
  · simp [copy_string_contents, Host.copyStringContents, henv, check_pending_none]

theorem make_big_integer_pending_none (lay : Layout) (env : Env) (sign : Int)
    (data : Nat → Nat) (count : Int) :
    (make_big_integer lay env sign data count).2.pending = none := by
  by_cases hg : env.size > lay.off_make_big_integer
  · by_cases hc : count > INT64_MAX - (lay.limbSize : Int) ∨
        count > PTRDIFF_MAX - (lay.limbSize : Int)
    · simp [make_big_integer, hg, hc, overflow_error_pending_none]
    · by_cases hfa : env.heap.failAt env.heap.ctr
      · simp [make_big_integer, hg, hc, mallocE, Heap.alloc, hfa,
          out_of_memory_pending_none]
      · simp [make_big_integer, hg, hc, mallocE, Heap.alloc, hfa,
          check_value_pending_none, freeE, Heap.freeId]
  · simp [make_big_integer, hg, overflow_error_pending_none]

theorem extract_big_integer_pending_none (lay : Layout) (env : Env) (v : EValue) :
    (extract_big_integer lay env v).2.pending = none := by
  by_cases hg : env.size > lay.off_extract_big_integer
  · rcases henv : env.pending with _ | p
    · cases v with
      | int n =>
        by_cases hsg : Int.sign n = 0
        · simp [extract_big_integer, hg, Host.extractBigIntegerProbe, henv, hsg,
            check_pending_none]
        · by_cases hbig : INT_MAX < ((Nat.log (limbBase lay) n.natAbs : Int) + 1) *
              (lay.limbSize : Int) ∨
              SIZE_MAX.tdiv 2 < ((Nat.log (limbBase lay) n.natAbs : Int) + 1) *
              (lay.limbSize : Int)
          · simp [extract_big_integer, hg, Host.extractBigIntegerProbe, henv, hsg, hbig,
              overflow_error_pending_none]
          · by_cases hfa : env.heap.failAt env.heap.ctr
            · simp [extract_big_integer, hg, Host.extractBigIntegerProbe, henv, hsg,
                hbig, mallocE, Heap.alloc, hfa, out_of_memory_pending_none]
            · simp [extract_big_integer, hg, Host.extractBigIntegerProbe, henv, hsg,
                hbig, mallocE, Heap.alloc, hfa, Host.extractBigIntegerFill]
      | _ =>
        all_goals
          simp [extract_big_integer, hg, Host.extractBigIntegerProbe, henv,
            check_pending_none]
    · simp [extract_big_integer, hg, Host.extractBigIntegerProbe, henv,
        check_pending_none]
  · rcases hir : extract_integer env v with ⟨⟨b, x⟩, env1⟩
    have hp1 : env1.pending = none := by
      have := extract_integer_pending_none env v
      rw [hir] at this
      exact this
    by_cases hz : b.exit ≠ FuncallExit.exitReturn ∨ x = 0
    · simp [extract_big_integer, hg, hir, hz]
      exact hp1
    · by_cases hfa : env1.heap.failAt env1.heap.ctr
      · simp [extract_big_integer, hg, hir, hz, mallocE, Heap.alloc, hfa,
          out_of_memory_pending_none]
      · simp [extract_big_integer, hg, hir, hz, mallocE, Heap.alloc, hfa]
        exact hp1

theorem make_unibyte_string_pending_none (lay : Layout) (env : Env)
    (data : Nat → Nat) (size : Int) :
    (make_unibyte_string lay env data size).2.pending = none := by
  by_cases hbig : size > PTRDIFF_MAX
  · simp [make_unibyte_string, hbig, overflow_error_pending_none]
  · by_cases hg : env.size > lay.off_make_unibyte_string
    · simp [make_unibyte_string, hbig, hg, check_value_pending_none]
    · by_cases hfa : env.heap.failAt env.heap.ctr
      · by_cases hpos : 0 < size
        · simp [make_unibyte_string, hbig, hg, mallocE, Heap.alloc, hfa, hpos,
            out_of_memory_pending_none]
        · rcases herr : (unibyteLoop data 0 (heapBump env) size.toNat).1 with _ | b
          · simp only [heapBump] at herr
            simp [make_unibyte_string, hbig, hg, mallocE, Heap.alloc, hfa, hpos, herr,
              freeOpt, check_value_pending_none]
          · have hlp := unibyteLoop_pending_none data size.toNat (heapBump env) 0 b herr
            have herr2 := herr
            simp only [heapBump] at hlp herr2
            simp [make_unibyte_string, hbig, hg, mallocE, Heap.alloc, hfa, hpos, herr2,
              freeOpt, freeE, Heap.freeId, hlp]
      · rcases herr : (unibyteLoop data 0 (heapOwn env) size.toNat).1 with _ | b
        · have herr2 := herr
          simp only [heapOwn] at herr2
          simp [make_unibyte_string, hbig, hg, mallocE, Heap.alloc, hfa, herr2,
            freeOpt, check_value_pending_none]
        · have hlp := unibyteLoop_pending_none data size.toNat (heapOwn env) 0 b herr
          have herr2 := herr
          simp only [heapOwn] at hlp herr2
          simp [make_unibyte_string, hbig, hg, mallocE, Heap.alloc, hfa, herr2,
            freeOpt, freeE, Heap.freeId, hlp]

/-- C10: every embedded operation that returns a result envelope leaves
the environment with no pending nonlocal exit: `check` clears after
querying, and the shim's error constructors signal and then immediately
capture-and-clear, so (entering with a clean environment) the error
travels only inside the returned envelope. -/
theorem operations_leave_no_pending_exit :
    (∀ env : Env, (check env).2.pending = none) ∧
    (∀ env : Env, (out_of_memory env).2.pending = none) ∧
    (∀ env : Env, (overflow_error env).2.pending = none) ∧
    (∀ env : Env, (unimplemented env).2.pending = none) ∧
    (∀ (env : Env) (x : Int), (make_integer env x).2.pending = none) ∧
    (∀ (env : Env) (v : EValue), (extract_integer env v).2.pending = none) ∧
    (∀ (env : Env) (v : EValue), (copy_string_contents env v).2.pending = none) ∧
    (∀ (lay : Layout) (env : Env) (sign : Int) (data : Nat → Nat) (count : Int),
      (make_big_integer lay env sign data count).2.pending = none) ∧
    (∀ (lay : Layout) (env : Env) (v : EValue),
      (extract_big_integer lay env v).2.pending = none) ∧
    (∀ (lay : Layout) (env : Env) (data : Nat → Nat) (size : Int),
      (make_unibyte_string lay env data size).2.pending = none) ∧
    (∀ (lay : Layout) (env : Env) (v : EValue),
      (phst_emacs_open_channel lay env v).2.pending = none) ∧
    (∀ (lay : Layout) (env : Env) (v : EValue),
      (open_channel lay env v).2.pending = none) ∧
    (∀ env : Env, env.pending = none → (out_of_memory env).1 =
      ⟨.exitSignal, .symbol .errorSym, .cons (.str oomMessage) nilV⟩) ∧
    (∀ env : Env, env.pending = none → (overflow_error env).1 =
      ⟨.exitSignal, .symbol .overflowErrorSym, .symbol .nilSym⟩) ∧
    (∀ env : Env, env.pending = none → (unimplemented env).1 =
      ⟨.exitSignal, .symbol .goUnimplementedError, .symbol .nilSym⟩) := by
  refine ⟨check_pending_none, fun env => rfl, fun env => rfl, fun env => rfl,
    make_integer_pending_none, extract_integer_pending_none,
    copy_string_contents_pending_none, make_big_integer_pending_none,
    extract_big_integer_pending_none, make_unibyte_string_pending_none,
    ?_, ?_, ?_, ?_, ?_⟩
  · intro lay env v
    by_cases hg : env.size > lay.off_open_channel <;>
      simp [phst_emacs_open_channel, hg, check_integer, check, Host.nonLocalExitClear,
        unimplemented, Host.intern, Host.nonLocalExitSignal, Host.nonLocalExitGet]
  · intro lay env v
    by_cases hg : env.size > lay.off_open_channel <;>
      simp [open_channel, hg, check, Host.nonLocalExitClear, unimplemented, Host.intern,
        Host.nonLocalExitSignal, Host.nonLocalExitGet]
  · intro env h
    rw [out_of_memory_clean env h]
  · intro env h
    rw [overflow_error_clean env h]
  · intro env h
    rw [unimplemented_clean env h]

/-- Witness for C10's conditional conjuncts at a concrete clean
environment. -/
theorem operations_leave_no_pending_exit_witness :
    (out_of_memory cleanEnv).1 =
      ⟨.exitSignal, .symbol .errorSym, .cons (.str oomMessage) nilV⟩ ∧
    (overflow_error cleanEnv).1 =
      ⟨.exitSignal, .symbol .overflowErrorSym, .symbol .nilSym⟩ ∧
    (unimplemented cleanEnv).1 =
      ⟨.exitSignal, .symbol .goUnimplementedError, .symbol .nilSym⟩ :=
  ⟨operations_leave_no_pending_exit.2.2.2.2.2.2.2.2.2.2.2.2.1 cleanEnv rfl,
    operations_leave_no_pending_exit.2.2.2.2.2.2.2.2.2.2.2.2.2.1 cleanEnv rfl,
    operations_leave_no_pending_exit.2.2.2.2.2.2.2.2.2.2.2.2.2.2 cleanEnv rfl⟩

end EmacsShim
